import Mathlib

/-!
Verification of the dependency-map generator (`tools/gen-deps-md.py`).

The program decodes a stream of back-to-back JSON values (the output of the
build-query tool), builds a per-package dependency graph scoped to a module
name, classifies every edge as internal / third-party / standard-library,
and renders a sorted markdown report.

The embedding below follows the Python source line by line:
  * `decodeStream` is the `while i < len(stdout)` loop of `run_go_list`
    (skip `str.isspace` characters, `raw_decode` one value, append, advance);
  * `processValue` / `buildValues` are the `for pkg in packages` loop of
    `main`, including the dynamic attribute errors Python raises on values
    that are not objects;
  * `addDep` is the classification body (plain `startswith` scope test,
    dot-in-first-segment heuristic);
  * `renderPkg` / `renderChunks` are the `out.append(...)` sequence.
The JSON value grammar itself is the Python standard library's
(`json.JSONDecoder.raw_decode`), whose code is not part of the repository;
it is modelled from the spec (see the doc comments marked "Modelled from
the spec").
-/

namespace GenDeps

/-- A decoded JSON value. Numbers keep their matched lexeme (the report
logic never interprets numeric values arithmetically, and this avoids
modelling floating point). -/
inductive Json where
  | null : Json
  | bool (b : Bool) : Json
  | num (lexeme : String) : Json
  | str (s : String) : Json
  | arr (elems : List Json) : Json
  | obj (fields : List (String × Json)) : Json

/-- A decode failure: the byte offset at which decoding failed and a
description of the malformed syntax. -/
structure DecodeError where
  pos : Nat
  msg : String
deriving DecidableEq

/-- Python `str.isspace` for one character: true exactly for the Unicode
code points Python treats as whitespace (category Zs or bidirectional
class WS, B, S). This is the predicate of the stream loop's
`stdout[i].isspace()`. -/
def pyIsSpace (c : Char) : Bool :=
  let n := c.toNat
  (9 ≤ n && n ≤ 13) || (28 ≤ n && n ≤ 31) || n = 32 || n = 0x85 || n = 0xA0 ||
  n = 0x1680 || (0x2000 ≤ n && n ≤ 0x200A) || n = 0x2028 || n = 0x2029 ||
  n = 0x202F || n = 0x205F || n = 0x3000

/-- `while i < len(stdout) and stdout[i].isspace(): i += 1` — skip a run of
Python whitespace, tracking the absolute offset. -/
def skipPySpace : Nat → List Char → Nat × List Char
  | pos, c :: rest => if pyIsSpace c then skipPySpace (pos + 1) rest else (pos, c :: rest)
  | pos, [] => (pos, [])

/-- JSON structural whitespace (the four characters the value grammar
skips inside objects and arrays). -/
def jsonWs (c : Char) : Bool :=
  c = ' ' || c = '\t' || c = '\n' || c = '\r'

/-- Skip JSON structural whitespace, tracking the absolute offset. -/
def skipJWs : Nat → List Char → Nat × List Char
  | pos, c :: rest => if jsonWs c then skipJWs (pos + 1) rest else (pos, c :: rest)
  | pos, [] => (pos, [])

/-- Value of a hexadecimal digit. -/
def hexDigit (c : Char) : Option Nat :=
  if '0' ≤ c ∧ c ≤ '9' then some (c.toNat - '0'.toNat)
  else if 'a' ≤ c ∧ c ≤ 'f' then some (c.toNat - 'a'.toNat + 10)
  else if 'A' ≤ c ∧ c ≤ 'F' then some (c.toNat - 'A'.toNat + 10)
  else none

/-- Read exactly four hexadecimal digits. -/
def read4Hex : List Char → Option (Nat × List Char)
  | a :: b :: c :: d :: rest =>
    match hexDigit a, hexDigit b, hexDigit c, hexDigit d with
    | some va, some vb, some vc, some vd =>
        some (((va * 16 + vb) * 16 + vc) * 16 + vd, rest)
    | _, _, _, _ => none
  | _ => none

/-- The single-character string escapes of the JSON grammar. -/
def escChar (c : Char) : Option Char :=
  if c = '"' then some '"'
  else if c = '\\' then some '\\'
  else if c = '/' then some '/'
  else if c = 'b' then some (Char.ofNat 8)
  else if c = 'f' then some (Char.ofNat 12)
  else if c = 'n' then some '\n'
  else if c = 'r' then some '\r'
  else if c = 't' then some '\t'
  else none

/-- Modelled from the spec: the string production of the "standard
recursive grammar" of §4.1 (the repository delegates it to the Python
standard library's JSON scanner, which is not part of `src/`). Scans the
body of a string literal whose opening quote is already consumed: plain
characters, the backslash escapes, `\uXXXX` escapes with surrogate-pair
combination, rejection of raw control characters, and an error at an
unterminated string. A lone surrogate escape — representable in a Python
string but not as a Unicode scalar — maps to `Char.ofNat`'s default; no
property below depends on that corner. `startPos` is the offset of the
opening quote (used in the unterminated-string error), `pos` the offset
of the head of `cs`. The fuel only bounds recursion depth; each call
consumes at least one character, so `fuel ≥ cs.length` never runs out. -/
def scanStr (startPos : Nat) : Nat → Nat → List Char → List Char →
    Except DecodeError (String × Nat × List Char)
  | 0, pos, _, _ => .error ⟨pos, "recursion limit exceeded"⟩
  | _ + 1, _, _, [] => .error ⟨startPos, "Unterminated string starting at"⟩
  | fuel + 1, pos, acc, c :: rest =>
    if c = '"' then .ok (String.mk acc.reverse, pos + 1, rest)
    else if c = '\\' then
      match rest with
      | [] => .error ⟨startPos, "Unterminated string starting at"⟩
      | e :: rest2 =>
        if e = 'u' then
          match read4Hex rest2 with
          | none => .error ⟨pos + 2, "Invalid hex escape"⟩
          | some (code, rest3) =>
            if 0xD800 ≤ code ∧ code ≤ 0xDBFF then
              match rest3 with
              | '\\' :: 'u' :: rest4 =>
                match read4Hex rest4 with
                | some (code2, rest5) =>
                  if 0xDC00 ≤ code2 ∧ code2 ≤ 0xDFFF then
                    scanStr startPos fuel (pos + 12)
                      (Char.ofNat (0x10000 + (code - 0xD800) * 0x400 + (code2 - 0xDC00)) :: acc)
                      rest5
                  else scanStr startPos fuel (pos + 6) (Char.ofNat code :: acc) rest3
                | none => scanStr startPos fuel (pos + 6) (Char.ofNat code :: acc) rest3
              | _ => scanStr startPos fuel (pos + 6) (Char.ofNat code :: acc) rest3
            else scanStr startPos fuel (pos + 6) (Char.ofNat code :: acc) rest3
        else
          match escChar e with
          | some ec => scanStr startPos fuel (pos + 2) (ec :: acc) rest2
          | none => .error ⟨pos, "Invalid escape"⟩
    else if c.toNat < 0x20 then .error ⟨pos, "Invalid control character"⟩
    else scanStr startPos fuel (pos + 1) (c :: acc) rest

/-- Decimal digit test for the number production. -/
def isDig (c : Char) : Bool := '0' ≤ c && c ≤ '9'

/-- Optional fraction part: a dot followed by at least one digit
(otherwise the number ends before the dot, as with a maximal-munch
regular expression). Returns the matched characters, the new offset and
the rest. -/
def fracPart (pos : Nat) (cs : List Char) : Option (List Char × Nat × List Char) :=
  match cs with
  | '.' :: rest =>
    match rest.takeWhile isDig with
    | [] => none
    | ds => some ('.' :: ds, pos + 1 + ds.length, rest.drop ds.length)
  | _ => none

/-- Optional exponent part: `e`/`E`, an optional sign, then at least one
digit; otherwise the number ends before the `e`. -/
def expPart (pos : Nat) (cs : List Char) : Option (List Char × Nat × List Char) :=
  match cs with
  | e :: rest =>
    if e = 'e' || e = 'E' then
      match rest with
      | s :: rest2 =>
        if s = '+' || s = '-' then
          match rest2.takeWhile isDig with
          | [] => none
          | ds => some (e :: s :: ds, pos + 2 + ds.length, rest2.drop ds.length)
        else
          match rest.takeWhile isDig with
          | [] => none
          | ds => some (e :: ds, pos + 1 + ds.length, rest.drop ds.length)
      | [] => none
    else none
  | [] => none

/-- Glue the integer part together with the optional fraction and
exponent parts, producing the whole matched lexeme. -/
def finishNum (intPart : List Char) (pos : Nat) (cs : List Char) :
    String × Nat × List Char :=
  match fracPart pos cs with
  | some (fr, pos2, cs2) =>
    match expPart pos2 cs2 with
    | some (ex, pos3, cs3) => (String.mk (intPart ++ fr ++ ex), pos3, cs3)
    | none => (String.mk (intPart ++ fr), pos2, cs2)
  | none =>
    match expPart pos cs with
    | some (ex, pos2, cs2) => (String.mk (intPart ++ ex), pos2, cs2)
    | none => (String.mk intPart, pos, cs)

/-- Modelled from the spec: the number production of §4.1's standard
grammar — `-? (0 | [1-9][0-9]*) frac? exp?` — returning the matched
lexeme. `none` when no number starts here (the caller reports
"Expecting value" at the start offset, as the scanner does when its
number pattern fails to match). -/
def parseNum (pos : Nat) (cs : List Char) : Option (String × Nat × List Char) :=
  let signed : List Char × Nat × List Char :=
    match cs with
    | '-' :: rest => (['-'], pos + 1, rest)
    | _ => ([], pos, cs)
  match signed with
  | (sign, pos1, cs1) =>
    match cs1 with
    | c :: rest =>
      if c = '0' then some (finishNum (sign ++ ['0']) (pos1 + 1) rest)
      else if isDig c then
        match rest.takeWhile isDig with
        | ds => some (finishNum (sign ++ c :: ds) (pos1 + 1 + ds.length) (rest.drop ds.length))
      else none
    | [] => none

/-- Match a fixed run of literal characters (`rue`, `alse`, `ull`). -/
def expectChars : Nat → List Char → List Char → Option (Nat × List Char)
  | pos, cs, [] => some (pos, cs)
  | pos, c :: rest, l :: ls => if c = l then expectChars (pos + 1) rest ls else none
  | _, [], _ :: _ => none

/-- The decoder's state between steps: which production it is working
on. `val` decodes one value; `objStart`/`arrStart` stand just after an
opening brace/bracket; `members`/`elems` carry the members or elements
decoded so far (in reverse). A single function over this tag keeps the
recursion structural in the fuel. -/
inductive PTask where
  | val : PTask
  | objStart : PTask
  | members (acc : List (String × Json)) : PTask
  | arrStart : PTask
  | elems (acc : List Json) : PTask

/-- Modelled from the spec: §4.1's decoder "attempts to decode exactly one
self-delimiting structured value starting at the current offset, using the
standard recursive grammar for such values (objects, arrays, strings,
numbers, literals) where the decoder determines the value's end offset as
part of decoding". The repository calls `json.JSONDecoder.raw_decode` for
this; that code is not under `src/`. On success: the value, the offset just
past it and the remaining characters. On failure: a `DecodeError` with the
offset of the malformed syntax and a description. The fuel bounds nesting
(mirroring the recursion limit of a recursive-descent decoder); every
recursive call follows at least one consumed character, so the generous
fuel the stream loop supplies never runs out. -/
def parseStep : Nat → PTask → Nat → List Char → Except DecodeError (Json × Nat × List Char)
  | 0, _, pos, _ => .error ⟨pos, "recursion limit exceeded"⟩
  | fuel + 1, .val, pos, cs =>
    (match cs with
    | [] => .error ⟨pos, "Expecting value"⟩
    | c :: rest =>
      if c = '\x7b' then parseStep fuel .objStart (pos + 1) rest
      else if c = '[' then parseStep fuel .arrStart (pos + 1) rest
      else if c = '"' then
        match scanStr pos (rest.length + 1) (pos + 1) [] rest with
        | .error e => .error e
        | .ok (s, p, r) => .ok (.str s, p, r)
      else if c = 't' then
        match expectChars (pos + 1) rest ['r', 'u', 'e'] with
        | some (p, r) => .ok (.bool true, p, r)
        | none => .error ⟨pos, "Expecting value"⟩
      else if c = 'f' then
        match expectChars (pos + 1) rest ['a', 'l', 's', 'e'] with
        | some (p, r) => .ok (.bool false, p, r)
        | none => .error ⟨pos, "Expecting value"⟩
      else if c = 'n' then
        match expectChars (pos + 1) rest ['u', 'l', 'l'] with
        | some (p, r) => .ok (.null, p, r)
        | none => .error ⟨pos, "Expecting value"⟩
      else
        match parseNum pos cs with
        | some (lex, p, r) => .ok (.num lex, p, r)
        | none => .error ⟨pos, "Expecting value"⟩)
  | fuel + 1, .objStart, pos, cs =>
    (match skipJWs pos cs with
    | (pos1, cs1) =>
      match cs1 with
      | '\x7d' :: r => .ok (.obj [], pos1 + 1, r)
      | _ => parseStep fuel (.members []) pos1 cs1)
  | fuel + 1, .members acc, pos, cs =>
    (match cs with
    | '"' :: rest =>
      (match scanStr pos (rest.length + 1) (pos + 1) [] rest with
      | .error e => .error e
      | .ok (key, p2, cs2) =>
        match skipJWs p2 cs2 with
        | (p3, cs3) =>
          match cs3 with
          | ':' :: cs4 =>
            (match skipJWs (p3 + 1) cs4 with
            | (p5, cs5) =>
              match parseStep fuel .val p5 cs5 with
              | .error e => .error e
              | .ok (v, p6, cs6) =>
                match skipJWs p6 cs6 with
                | (p7, cs7) =>
                  match cs7 with
                  | '\x7d' :: r => .ok (.obj ((key, v) :: acc).reverse, p7 + 1, r)
                  | ',' :: r =>
                    (match skipJWs (p7 + 1) r with
                    | (p8, cs8) => parseStep fuel (.members ((key, v) :: acc)) p8 cs8)
                  | _ => .error ⟨p7, "Expecting comma delimiter"⟩)
          | _ => .error ⟨p3, "Expecting colon delimiter"⟩)
    | _ => .error ⟨pos, "Expecting property name enclosed in double quotes"⟩)
  | fuel + 1, .arrStart, pos, cs =>
    (match skipJWs pos cs with
    | (pos1, cs1) =>
      match cs1 with
      | ']' :: r => .ok (.arr [], pos1 + 1, r)
      | _ => parseStep fuel (.elems []) pos1 cs1)
  | fuel + 1, .elems acc, pos, cs =>
    match parseStep fuel .val pos cs with
    | .error e => .error e
    | .ok (v, p2, cs2) =>
      match skipJWs p2 cs2 with
      | (p3, cs3) =>
        match cs3 with
        | ']' :: r => .ok (.arr (v :: acc).reverse, p3 + 1, r)
        | ',' :: r =>
          (match skipJWs (p3 + 1) r with
          | (p4, cs4) => parseStep fuel (.elems (v :: acc)) p4 cs4)
        | _ => .error ⟨p3, "Expecting comma delimiter"⟩

/-- Decode exactly one value at the given offset. -/
def parseVal (fuel pos : Nat) (cs : List Char) : Except DecodeError (Json × Nat × List Char) :=
  parseStep fuel .val pos cs

/-- One `raw_decode` call of the stream loop: decode exactly one value at
the given offset (no leading-whitespace skip — the loop has already
skipped), with fuel ample for any nesting the buffer can hold. -/
def rawDecode (pos : Nat) (cs : List Char) : Except DecodeError (Json × Nat × List Char) :=
  parseVal (2 * cs.length + 4) pos cs

/-- The `while i < len(stdout)` loop of `run_go_list`: skip Python
whitespace; stop successfully at end of buffer; otherwise decode one value
and continue after it. A decode failure aborts the whole loop with that
error, discarding every value appended so far. The fuel counts loop
iterations; each decoded value consumes at least one character, so the
`length + 1` budget `decodeString` supplies never runs out. -/
def decodeStream : Nat → Nat → List Char → Except DecodeError (List Json)
  | 0, pos, _ => .error ⟨pos, "iteration limit exceeded"⟩
  | fuel + 1, pos, cs =>
    match skipPySpace pos cs with
    | (pos1, cs1) =>
      match cs1 with
      | [] => .ok []
      | _ :: _ =>
        match rawDecode pos1 cs1 with
        | .error e => .error e
        | .ok (v, pos2, cs2) =>
          match decodeStream fuel pos2 cs2 with
          | .error e => .error e
          | .ok vs => .ok (v :: vs)

/-- `run_go_list`'s decoding of the whole captured buffer into the ordered
sequence of packages. -/
def decodeString (s : String) : Except DecodeError (List Json) :=
  decodeStream (s.toList.length + 1) 0 s.toList

/-! ## Graph builder and edge classifier (`main`, lines 36–57) -/

/-- The module-level configuration constant `MODULE` of the script. All
operations below take the module name as an explicit parameter (the spec's
"module prefix"); this constant instantiates them as the script does. -/
def moduleName : String := "github.com/example/ktl"

/-- `cs` begins with `pre`, character for character. -/
def listStarts : List Char → List Char → Bool
  | _, [] => true
  | [], _ :: _ => false
  | c :: cs, p :: ps => c = p && listStarts cs ps

/-- Python `s.startswith(pre)`: `pre` is a leading substring of `s`. -/
def strStarts (s pre : String) : Bool := listStarts s.toList pre.toList

/-- The first path segment of an identifier: the characters before the
first `/`, or all of them if there is none (`dep.split("/", 1)[0]`). -/
def firstSeg (s : String) : List Char := s.toList.takeWhile (fun c => c != '/')

/-- Python `"." in first` for the first path segment: the third-party
heuristic's dot test. -/
def dottedFirst (s : String) : Bool := (firstSeg s).any (fun c => c = '.')

/-- Code-point lexicographic order on character lists: how Python
compares strings. -/
def lexLe : List Char → List Char → Bool
  | [], _ => true
  | _ :: _, [] => false
  | a :: as, b :: bs =>
    if a.toNat < b.toNat then true
    else if b.toNat < a.toNat then false
    else lexLe as bs

/-- Python's `≤` on strings (code-point lexicographic), the order
`sorted` sorts by. -/
def strLe (a b : String) : Bool := lexLe a.toList b.toList

/-- `strLe` as a relation, for the sorting lemmas. -/
def strRel (a b : String) : Prop := strLe a b = true

instance : DecidableRel strRel :=
  fun a b => inferInstanceAs (Decidable (strLe a b = true))

/-- `sorted(...)` on a list of strings. Insertion sort is extensionally
the unique ascending reordering, which is all the program observes. -/
def sortedStrs (l : List String) : List String := List.insertionSort strRel l

/-- `set.add`: append the element unless it is already present. A Python
set is unordered; only the membership and the size are ever observed
(iteration always goes through `sorted`), so a duplicate-free list is a
faithful model. -/
def pyInsert (l : List String) (v : String) : List String :=
  if v ∈ l then l else l ++ [v]

/-- First-occurrence deduplication with an accumulator of the elements
already kept. -/
def pyDedupAux : List String → List String → List String
  | _, [] => []
  | seen, k :: rest =>
    if k ∈ seen then pyDedupAux seen rest else k :: pyDedupAux (k :: seen) rest

/-- First-occurrence deduplication: the elements of `set(l)`, and the
key order of a Python dict built from a pair list. -/
def pyDedup (l : List String) : List String := pyDedupAux [] l

/-- The classified dependency graph that the three `defaultdict(set)`
maps of `main` hold. Each map is a total function (a missing key reads as
the empty set, exactly like `defaultdict(set)` and like the renderer's
`.get(p, set())`), together with its key list (a `defaultdict` records a
key exactly when an element was added under it). -/
@[ext] structure Graph where
  internal : String → List String
  thirdParty : String → List String
  stdlib : String → List String
  internalKeys : List String
  thirdKeys : List String
  stdlibKeys : List String

/-- The graph before any record is processed: three empty maps. -/
def emptyGraph : Graph := ⟨fun _ => [], fun _ => [], fun _ => [], [], [], []⟩

/-- `m[k].add v` on one of the set-valued maps. -/
def addTo (m : String → List String) (k v : String) : String → List String :=
  fun q => if q = k then pyInsert (m q) v else m q

/-- The class a dependency edge is assigned. -/
inductive DepClass where
  | internal : DepClass
  | thirdParty : DepClass
  | stdlib : DepClass
deriving DecidableEq

/-- The classification rule of `main`'s inner loop, as a function of the
dependency identifier and the module name: `dep.startswith(MODULE)` means
internal; otherwise the first path segment (`dep.split("/", 1)[0]`, i.e.
the text before the first `/`, or the whole identifier) decides — a
literal dot in it means third-party, else standard library. -/
def classify (module dep : String) : DepClass :=
  if strStarts dep module then .internal
  else if dottedFirst dep then .thirdParty
  else .stdlib

/-- The body of `for dep in pkg.get("Deps", []) or []:` — classify one
dependency of the in-scope package `imp` and add it to the corresponding
map. Only the internal branch carries the `dep != imp_path` self-edge
test, exactly as in the source. -/
def addDep (module imp : String) (g : Graph) (dep : String) : Graph :=
  if strStarts dep module then
    if dep = imp then g
    else { g with internal := addTo g.internal imp dep,
                  internalKeys := pyInsert g.internalKeys imp }
  else if dottedFirst dep then
    { g with thirdParty := addTo g.thirdParty imp dep,
             thirdKeys := pyInsert g.thirdKeys imp }
  else
    { g with stdlib := addTo g.stdlib imp dep,
             stdlibKeys := pyInsert g.stdlibKeys imp }

/-- A package record as the builder reads it off a decoded object:
`ImportPath` (missing read as `""`) and `Deps` (missing read as the empty
list). -/
structure PackageRecord where
  importPath : String
  deps : List String

/-- One iteration of `for pkg in packages:` at the record level: skip the
record unless its import path starts with the module name, else fold its
dependencies through `addDep`. -/
def processRecord (module : String) (g : Graph) (r : PackageRecord) : Graph :=
  if strStarts r.importPath module then r.deps.foldl (addDep module r.importPath) g
  else g

/-- The whole builder loop of `main` over clean records. -/
def buildRecords (module : String) (rs : List PackageRecord) : Graph :=
  rs.foldl (processRecord module) emptyGraph

/-! ## The builder over raw decoded values

`main` runs directly over whatever `raw_decode` produced: `pkg.get(...)`
and `imp_path.startswith(...)` are dynamic attribute lookups that raise
for values of the wrong shape. The `Except PyError` layer models those
uncaught exceptions. -/

/-- The dynamic errors Python raises in `main`'s loop: attribute lookup on
an object without that attribute (`.get` on a non-dict, `.startswith` on a
non-string), and iteration over a non-iterable. -/
inductive PyError where
  | attributeError : PyError
  | typeError : PyError
deriving DecidableEq

/-- `dict.get(k, default)` on a dict built by the JSON decoder from a
field list: the value of the last binding of `k` (later duplicate keys
overwrite earlier ones), or `none`. -/
def pyLookup (fields : List (String × Json)) (k : String) : Option Json :=
  fields.foldl (fun acc kv => if kv.1 = k then some kv.2 else acc) none

/-- Whether a float lexeme denotes zero, for Python truthiness: the
mantissa consists only of zeros, dots and a sign. (Exact for every lexeme
whose float value does not underflow; no property below depends on
numeric truthiness at all.) -/
def numLexZero (lex : String) : Bool :=
  (lex.toList.takeWhile (fun c => c != 'e' && c != 'E')).all
    (fun c => c = '0' || c = '.' || c = '-' || c = '+')

/-- Python truthiness of a decoded JSON value, as `or []` tests it. -/
def jsonTruthy : Json → Bool
  | .null => false
  | .bool b => b
  | .num lex => !(numLexZero lex)
  | .str s => !s.isEmpty
  | .arr xs => !xs.isEmpty
  | .obj fs => !fs.isEmpty

/-- `for dep in deps:` — what Python iteration yields for each value
shape: list elements, the one-character strings of a string, the keys of
a dict (insertion order, duplicates collapsed); `TypeError` for the
rest. -/
def pyIter : Json → Except PyError (List Json)
  | .arr xs => .ok xs
  | .str s => .ok (s.toList.map (fun c => Json.str (String.singleton c)))
  | .obj fs => .ok ((pyDedup (fs.map Prod.fst)).map Json.str)
  | _ => .error .typeError

/-- One iteration of `for pkg in packages:` over a raw decoded value,
exactly in the source's evaluation order: `pkg.get("ImportPath", "")`
(AttributeError unless `pkg` is a dict), `imp_path.startswith(MODULE)`
(AttributeError unless the import path is a string), the scope test, then
`pkg.get("Deps", []) or []` and the dependency loop, where each
`dep.startswith(MODULE)` again needs a string. -/
def processValue (module : String) (g : Graph) (pkg : Json) : Except PyError Graph :=
  match pkg with
  | .obj fields =>
    match (pyLookup fields "ImportPath").getD (.str "") with
    | .str imp =>
      if strStarts imp module then
        let depsJ := (pyLookup fields "Deps").getD (.arr [])
        let depsJ := if jsonTruthy depsJ then depsJ else .arr []
        match pyIter depsJ with
        | .error e => .error e
        | .ok elems =>
          elems.foldlM
            (fun g e =>
              match e with
              | .str d => .ok (addDep module imp g d)
              | _ => .error PyError.attributeError)
            g
      else .ok g
    | _ => .error .attributeError
  | _ => .error .attributeError

/-- The whole builder loop of `main` over the decoded value stream. An
exception at any record aborts the program, so the partially built maps
are never observed. -/
def buildValues (module : String) (vals : List Json) : Except PyError Graph :=
  vals.foldlM (processValue module) emptyGraph

/-- The object shape `go list -json` emits for a record: an `ImportPath`
string and a `Deps` array of strings. -/
def recordToJson (r : PackageRecord) : Json :=
  .obj [("ImportPath", .str r.importPath), ("Deps", .arr (r.deps.map .str))]

/-! ## Report renderer (`main`, lines 59–104) -/

/-- The fixed cap (`cap = 80`) on listed third-party dependencies per
package section. -/
def thirdCap : Nat := 80

/-- The static header block the script appends before any package
section. -/
def headerChunks : List String :=
  ["# Dependency Map (Generated)\n", "\n",
   "This file is generated. Do not edit by hand.\n", "\n",
   "Regenerate with:\n", "\n",
   "```bash\n", "make deps\n", "```\n", "\n"]

/-- One dependency line, `f"- \x60{d}\x60\n"`. -/
def fmtDep (d : String) : String := "- `" ++ d ++ "`\n"

/-- The internal-deps block of a section: one line per dependency, or the
placeholder. -/
def internalBlock (internal : List String) : List String :=
  if internal.isEmpty then ["- (none)\n"] else internal.map fmtDep

/-- The third-party block of a section: the first `cap` entries, a
truncation marker when the set is larger, or the placeholder. -/
def thirdBlock (cap : Nat) (third : List String) : List String :=
  if third.isEmpty then ["- (none)\n"]
  else
    (third.take cap).map fmtDep ++
      (if cap < third.length then ["- ... (" ++ toString (third.length - cap) ++ " more)\n"]
       else [])

/-- The stdlib block of a section: a count only. -/
def stdlibBlock (stdlib : List String) : List String :=
  if stdlib.isEmpty then ["- 0 packages\n"]
  else ["- " ++ toString stdlib.length ++ " packages\n"]

/-- The chunk sequence `main` appends for one package section: heading,
sorted internal list, sorted capped third-party list, stdlib count. -/
def renderPkg (cap : Nat) (g : Graph) (p : String) : List String :=
  ["## `" ++ p ++ "`\n\n", "**Internal deps**\n\n"]
    ++ internalBlock (sortedStrs (g.internal p)) ++ ["\n"]
    ++ ["**Third-party deps**\n\n"]
    ++ thirdBlock cap (sortedStrs (g.thirdParty p)) ++ ["\n"]
    ++ ["**Stdlib deps**\n\n"]
    ++ stdlibBlock (sortedStrs (g.stdlib p)) ++ ["\n"]

/-- `pkgs = sorted(set(internal keys + stdlib keys + third-party keys))`:
the deduplicated, ascending list of packages that received at least one
classified dependency. -/
def pkgsList (g : Graph) : List String :=
  sortedStrs (pyDedup (g.internalKeys ++ g.stdlibKeys ++ g.thirdKeys))

/-- The whole chunk list `out`: the static header, then one section per
package in `pkgsList` order. -/
def renderChunks (g : Graph) (cap : Nat) : List String :=
  headerChunks ++ (pkgsList g).flatMap (renderPkg cap g)

/-- `"".join(out)` — the rendered report text. -/
def renderText (g : Graph) (cap : Nat) : String :=
  String.join (renderChunks g cap)

/-- Either failure mode of the pipeline: a decode error from the stream
loop, or a dynamic Python error from the builder loop. -/
inductive PipeError where
  | decode (e : DecodeError) : PipeError
  | py (e : PyError) : PipeError
deriving DecidableEq

/-- The whole program on a captured buffer, parameterised by the module
name and the cap: decode the stream, build the graph, render the report.
Any error aborts with no report. -/
def pipelineWith (module : String) (cap : Nat) (input : String) :
    Except PipeError String :=
  match decodeString input with
  | .error e => .error (.decode e)
  | .ok vals =>
    match buildValues module vals with
    | .error e => .error (.py e)
    | .ok g => .ok (renderText g cap)

/-- The script as shipped: `MODULE` and `cap = 80`. -/
def pipeline (input : String) : Except PipeError String :=
  pipelineWith moduleName thirdCap input

/-! ## Concrete scenario data (spec §8) -/

/-- Scenario 1, first record: package `a` with one internal, one stdlib
and one third-party dependency. -/
def recA : PackageRecord :=
  ⟨"example.com/mod/a", ["example.com/mod/b", "fmt", "github.com/x/y"]⟩

/-- Scenario 1, second record: package `b` with an empty dependency
list. -/
def recB : PackageRecord := ⟨"example.com/mod/b", []⟩

/-- Scenario 1's input buffer: the two records back to back with no
separator. -/
def scenario1Input : String :=
  "\x7b\"ImportPath\":\"example.com/mod/a\",\"Deps\":[\"example.com/mod/b\",\"fmt\",\"github.com/x/y\"]\x7d\x7b\"ImportPath\":\"example.com/mod/b\",\"Deps\":[]\x7d"

/-- `recA` with its dependency list reordered (first two entries
swapped) — same package, same dependency set. -/
def recA2 : PackageRecord :=
  ⟨"example.com/mod/a", ["fmt", "example.com/mod/b", "github.com/x/y"]⟩

/-- Ninety distinct third-party dependency identifiers (dotted first
segment, outside the `example.com/mod` module). -/
def deps90 : List String :=
  (List.range 90).map (fun n => "h" ++ toString (100 + n) ++ ".io/p")

/-- Scenario 4's record: a package with ninety distinct third-party
dependencies. -/
def rec90 : PackageRecord := ⟨"example.com/mod/a", deps90⟩

/-- The raw dependency identifiers a graph node owes to a record list:
the union of the `Deps` of every in-scope record whose import path is the
node (the right-hand side of the partition invariant). -/
def rawDeps (module : String) (rs : List PackageRecord) (p : String) : Finset String :=
  (rs.filter (fun r => r.importPath == p && strStarts r.importPath module)).foldr
    (fun r acc => r.deps.toFinset ∪ acc) ∅

/-- Two records carrying the same package: equal import paths, dependency
lists that are permutations of each other. -/
def recEquiv (r s : PackageRecord) : Prop :=
  r.importPath = s.importPath ∧ r.deps.Perm s.deps

/-! ## Order lemmas for the rendering sort -/

theorem charEq_of_toNat_eq {a b : Char} (h : a.toNat = b.toNat) : a = b := by
  cases a with
  | mk v hv =>
    cases b with
    | mk w hw =>
      simp only [Char.toNat] at h
      congr 1
      exact UInt32.ext h

theorem strEq_of_toList {s t : String} (h : s.toList = t.toList) : s = t := by
  cases s
  cases t
  simp only [String.toList] at h
  exact congrArg String.mk h

theorem lexLe_total : ∀ as bs : List Char, lexLe as bs = true ∨ lexLe bs as = true := by
  intro as
  induction as with
  | nil => intro bs; left; cases bs <;> rfl
  | cons a as ih =>
    intro bs
    cases bs with
    | nil => right; rfl
    | cons b bs =>
      simp only [lexLe]
      rcases Nat.lt_trichotomy a.toNat b.toNat with h | h | h
      · left; simp [h]
      · have h1 : ¬ a.toNat < b.toNat := by omega
        have h2 : ¬ b.toNat < a.toNat := by omega
        simpa [h1, h2] using ih bs
      · right; simp [h]

theorem lexLe_trans :
    ∀ as bs cs : List Char, lexLe as bs = true → lexLe bs cs = true → lexLe as cs = true := by
  intro as
  induction as with
  | nil => intro bs cs _ _; simp [lexLe]
  | cons a as ih =>
    intro bs cs hab hbc
    cases bs with
    | nil => simp [lexLe] at hab
    | cons b bs =>
      cases cs with
      | nil => simp [lexLe] at hbc
      | cons c cs =>
        simp only [lexLe] at hab hbc ⊢
        by_cases h1 : a.toNat < b.toNat
        · by_cases h2 : b.toNat < c.toNat
          · have h5 : a.toNat < c.toNat := by omega
            simp [h5]
          · by_cases h3 : c.toNat < b.toNat
            · simp [if_neg h2, if_pos h3] at hbc
            · have h5 : a.toNat < c.toNat := by omega
              simp [h5]
        · by_cases h1' : b.toNat < a.toNat
          · simp [if_neg h1, if_pos h1'] at hab
          · by_cases h2 : b.toNat < c.toNat
            · have h5 : a.toNat < c.toNat := by omega
              simp [h5]
            · by_cases h3 : c.toNat < b.toNat
              · simp [if_neg h2, if_pos h3] at hbc
              · simp only [if_neg h1, if_neg h1'] at hab
                simp only [if_neg h2, if_neg h3] at hbc
                have h5 : ¬ a.toNat < c.toNat := by omega
                have h6 : ¬ c.toNat < a.toNat := by omega
                simp only [if_neg h5, if_neg h6]
                exact ih bs cs hab hbc

theorem lexLe_antisymm :
    ∀ as bs : List Char, lexLe as bs = true → lexLe bs as = true → as = bs := by
  intro as
  induction as with
  | nil => intro bs _ hba; cases bs with
    | nil => rfl
    | cons b bs => simp [lexLe] at hba
  | cons a as ih =>
    intro bs hab hba
    cases bs with
    | nil => simp [lexLe] at hab
    | cons b bs =>
      simp only [lexLe] at hab hba
      rcases Nat.lt_trichotomy a.toNat b.toNat with h | h | h
      · simp [h] at hba; omega
      · have h1 : ¬ a.toNat < b.toNat := by omega
        have h2 : ¬ b.toNat < a.toNat := by omega
        simp only [h1, h2, if_false] at hab hba
        rw [charEq_of_toNat_eq h, ih bs hab hba]
      · simp [h] at hab; omega

instance : IsTotal String strRel :=
  ⟨fun a b => lexLe_total a.toList b.toList⟩

instance : IsTrans String strRel :=
  ⟨fun a b c hab hbc => lexLe_trans a.toList b.toList c.toList hab hbc⟩

instance : IsAntisymm String strRel :=
  ⟨fun a b hab hba => strEq_of_toList (lexLe_antisymm a.toList b.toList hab hba)⟩

theorem sortedStrs_sorted (l : List String) : List.Sorted strRel (sortedStrs l) :=
  List.sorted_insertionSort strRel l

theorem sortedStrs_perm (l : List String) : (sortedStrs l).Perm l :=
  List.perm_insertionSort strRel l

theorem sortedStrs_congr {l₁ l₂ : List String} (h : l₁.Perm l₂) :
    sortedStrs l₁ = sortedStrs l₂ :=
  List.eq_of_perm_of_sorted
    ((sortedStrs_perm l₁).trans (h.trans (sortedStrs_perm l₂).symm))
    (sortedStrs_sorted l₁) (sortedStrs_sorted l₂)

theorem mem_sortedStrs {l : List String} {d : String} : d ∈ sortedStrs l ↔ d ∈ l :=
  (sortedStrs_perm l).mem_iff

theorem sortedStrs_nodup {l : List String} (h : l.Nodup) : (sortedStrs l).Nodup :=
  ((sortedStrs_perm l).nodup_iff).mpr h

theorem sortedStrs_length (l : List String) : (sortedStrs l).length = l.length :=
  (sortedStrs_perm l).length_eq

theorem sortedStrs_sorted_strict {l : List String} (h : l.Nodup) :
    List.Sorted (fun a b => strRel a b ∧ a ≠ b) (sortedStrs l) :=
  (sortedStrs_sorted l).and (sortedStrs_nodup h)

/-! ## Set-model lemmas -/

theorem mem_pyInsert {l : List String} {v d : String} :
    d ∈ pyInsert l v ↔ d ∈ l ∨ d = v := by
  unfold pyInsert
  split
  · rename_i h
    constructor
    · exact fun hd => Or.inl hd
    · rintro (hd | rfl)
      · exact hd
      · exact h
  · simp

theorem nodup_pyInsert {l : List String} {v : String} (h : l.Nodup) :
    (pyInsert l v).Nodup := by
  unfold pyInsert
  split
  · exact h
  · rename_i hv
    simp [List.nodup_append, h, hv]

theorem mem_pyDedupAux :
    ∀ (l seen : List String) (d : String), d ∈ pyDedupAux seen l ↔ d ∈ l ∧ d ∉ seen := by
  intro l
  induction l with
  | nil => simp [pyDedupAux]
  | cons k rest ih =>
    intro seen d
    unfold pyDedupAux
    split
    · rename_i hk
      rw [ih]
      simp only [List.mem_cons]
      constructor
      · rintro ⟨hd, hs⟩; exact ⟨Or.inr hd, hs⟩
      · rintro ⟨hd | hd, hs⟩
        · subst hd; exact absurd hk hs
        · exact ⟨hd, hs⟩
    · rename_i hk
      simp only [List.mem_cons, ih, List.mem_cons]
      constructor
      · rintro (rfl | ⟨hd, hs⟩)
        · exact ⟨Or.inl rfl, hk⟩
        · exact ⟨Or.inr hd, fun hds => hs (Or.inr hds)⟩
      · rintro ⟨hd | hd, hs⟩
        · exact Or.inl hd
        · by_cases hdk : d = k
          · exact Or.inl hdk
          · exact Or.inr ⟨hd, by rintro (h | h); exact hdk h; exact hs h⟩

theorem mem_pyDedup {l : List String} {d : String} : d ∈ pyDedup l ↔ d ∈ l := by
  simp [pyDedup, mem_pyDedupAux]

theorem nodup_pyDedupAux : ∀ (l seen : List String), (pyDedupAux seen l).Nodup := by
  intro l
  induction l with
  | nil => intro seen; simp [pyDedupAux]
  | cons k rest ih =>
    intro seen
    unfold pyDedupAux
    split
    · exact ih seen
    · refine List.nodup_cons.mpr ⟨?_, ih (k :: seen)⟩
      rw [mem_pyDedupAux]
      rintro ⟨-, hs⟩
      exact hs (List.mem_cons_self k seen)

theorem nodup_pyDedup (l : List String) : (pyDedup l).Nodup := nodup_pyDedupAux l []

/-! ## Classifier lemmas -/

theorem classify_internal_iff {module d : String} :
    classify module d = DepClass.internal ↔ strStarts d module = true := by
  unfold classify
  split_ifs with h1 h2 <;> simp_all

theorem classify_third_iff {module d : String} :
    classify module d = DepClass.thirdParty ↔
      strStarts d module = false ∧ dottedFirst d = true := by
  unfold classify
  split_ifs with h1 h2 <;> simp_all

theorem classify_stdlib_iff {module d : String} :
    classify module d = DepClass.stdlib ↔
      strStarts d module = false ∧ dottedFirst d = false := by
  unfold classify
  split_ifs with h1 h2 <;> simp_all

/-! ## Membership in the built graph -/

theorem mem_addTo {m : String → List String} {k v p d : String} :
    d ∈ addTo m k v p ↔ d ∈ m p ∨ (p = k ∧ d = v) := by
  unfold addTo
  split
  · rename_i h
    subst h
    rw [mem_pyInsert]
    tauto
  · rename_i h
    simp [h]

theorem addDep_mem_internal {module imp dep p d : String} {g : Graph} :
    d ∈ (addDep module imp g dep).internal p ↔
      d ∈ g.internal p ∨
        (p = imp ∧ d ∈ [dep] ∧ classify module d = DepClass.internal ∧ d ≠ imp) := by
  unfold addDep
  split_ifs with h1 h2 h3
  · subst h2
    simp only [List.mem_singleton]
    constructor
    · exact Or.inl
    · rintro (h | ⟨-, rfl, -, hne⟩)
      · exact h
      · exact absurd rfl hne
  · simp only [mem_addTo, List.mem_singleton]
    constructor
    · rintro (h | ⟨rfl, rfl⟩)
      · exact Or.inl h
      · exact Or.inr ⟨rfl, rfl, classify_internal_iff.mpr h1, h2⟩
    · rintro (h | ⟨rfl, rfl, -, -⟩)
      · exact Or.inl h
      · exact Or.inr ⟨rfl, rfl⟩
  · simp only [List.mem_singleton]
    constructor
    · exact Or.inl
    · rintro (h | ⟨rfl, rfl, hc, -⟩)
      · exact h
      · rw [classify_internal_iff] at hc
        rw [hc] at h1
        exact absurd rfl h1
  · simp only [List.mem_singleton]
    constructor
    · exact Or.inl
    · rintro (h | ⟨rfl, rfl, hc, -⟩)
      · exact h
      · rw [classify_internal_iff] at hc
        rw [hc] at h1
        exact absurd rfl h1

theorem addDep_mem_third {module imp dep p d : String} {g : Graph} :
    d ∈ (addDep module imp g dep).thirdParty p ↔
      d ∈ g.thirdParty p ∨
        (p = imp ∧ d ∈ [dep] ∧ classify module d = DepClass.thirdParty) := by
  unfold addDep
  split_ifs with h1 h2 h3
  · simp only [List.mem_singleton]
    constructor
    · exact Or.inl
    · rintro (h | ⟨rfl, rfl, hc⟩)
      · exact h
      · rw [classify_third_iff] at hc
        rw [h1] at hc
        simp at hc
  · simp only [List.mem_singleton]
    constructor
    · exact Or.inl
    · rintro (h | ⟨rfl, rfl, hc⟩)
      · exact h
      · rw [classify_third_iff] at hc
        rw [h1] at hc
        simp at hc
  · simp only [mem_addTo, List.mem_singleton]
    constructor
    · rintro (h | ⟨rfl, rfl⟩)
      · exact Or.inl h
      · exact Or.inr ⟨rfl, rfl,
          classify_third_iff.mpr ⟨Bool.not_eq_true _ ▸ h1, h3⟩⟩
    · rintro (h | ⟨rfl, rfl, -⟩)
      · exact Or.inl h
      · exact Or.inr ⟨rfl, rfl⟩
  · simp only [List.mem_singleton]
    constructor
    · exact Or.inl
    · rintro (h | ⟨rfl, rfl, hc⟩)
      · exact h
      · rw [classify_third_iff] at hc
        rw [hc.2] at h3
        exact absurd rfl h3

theorem addDep_mem_stdlib {module imp dep p d : String} {g : Graph} :
    d ∈ (addDep module imp g dep).stdlib p ↔
      d ∈ g.stdlib p ∨
        (p = imp ∧ d ∈ [dep] ∧ classify module d = DepClass.stdlib) := by
  unfold addDep
  split_ifs with h1 h2 h3
  · simp only [List.mem_singleton]
    constructor
    · exact Or.inl
    · rintro (h | ⟨rfl, rfl, hc⟩)
      · exact h
      · rw [classify_stdlib_iff] at hc
        rw [h1] at hc
        simp at hc
  · simp only [List.mem_singleton]
    constructor
    · exact Or.inl
    · rintro (h | ⟨rfl, rfl, hc⟩)
      · exact h
      · rw [classify_stdlib_iff] at hc
        rw [h1] at hc
        simp at hc
  · simp only [List.mem_singleton]
    constructor
    · exact Or.inl
    · rintro (h | ⟨rfl, rfl, hc⟩)
      · exact h
      · rw [classify_stdlib_iff] at hc
        rw [hc.2] at h3
        exact absurd h3 (by simp)
  · simp only [mem_addTo, List.mem_singleton]
    constructor
    · rintro (h | ⟨rfl, rfl⟩)
      · exact Or.inl h
      · refine Or.inr ⟨rfl, rfl, classify_stdlib_iff.mpr ⟨Bool.not_eq_true _ ▸ h1, ?_⟩⟩
        exact Bool.not_eq_true _ ▸ h3
    · rintro (h | ⟨rfl, rfl, -⟩)
      · exact Or.inl h
      · exact Or.inr ⟨rfl, rfl⟩

theorem addDep_obs_internal {module imp dep p d : String} {g : Graph} :
    d ∈ (addDep module imp g dep).internal p ↔
      d ∈ g.internal p ∨
        (p = imp ∧ d = dep ∧ classify module d = DepClass.internal ∧ d ≠ imp) := by
  rw [addDep_mem_internal]
  simp only [List.mem_singleton]

theorem addDep_obs_third {module imp dep p d : String} {g : Graph} :
    d ∈ (addDep module imp g dep).thirdParty p ↔
      d ∈ g.thirdParty p ∨
        (p = imp ∧ d = dep ∧ classify module d = DepClass.thirdParty) := by
  rw [addDep_mem_third]
  simp only [List.mem_singleton]

theorem addDep_obs_stdlib {module imp dep p d : String} {g : Graph} :
    d ∈ (addDep module imp g dep).stdlib p ↔
      d ∈ g.stdlib p ∨
        (p = imp ∧ d = dep ∧ classify module d = DepClass.stdlib) := by
  rw [addDep_mem_stdlib]
  simp only [List.mem_singleton]

theorem addDep_obs_internalKeys {module imp dep p : String} {g : Graph} :
    p ∈ (addDep module imp g dep).internalKeys ↔
      p ∈ g.internalKeys ∨
        (p = imp ∧ classify module dep = DepClass.internal ∧ dep ≠ imp) := by
  unfold addDep
  split_ifs with h1 h2 h3
  · subst h2
    constructor
    · exact Or.inl
    · rintro (h | ⟨-, -, hne⟩)
      · exact h
      · exact absurd rfl hne
  · rw [mem_pyInsert]
    constructor
    · rintro (h | rfl)
      · exact Or.inl h
      · exact Or.inr ⟨rfl, classify_internal_iff.mpr h1, h2⟩
    · rintro (h | ⟨rfl, -, -⟩)
      · exact Or.inl h
      · exact Or.inr rfl
  · constructor
    · exact Or.inl
    · rintro (h | ⟨rfl, hc, -⟩)
      · exact h
      · rw [classify_internal_iff] at hc
        rw [hc] at h1
        exact absurd rfl h1
  · constructor
    · exact Or.inl
    · rintro (h | ⟨rfl, hc, -⟩)
      · exact h
      · rw [classify_internal_iff] at hc
        rw [hc] at h1
        exact absurd rfl h1

theorem addDep_obs_thirdKeys {module imp dep p : String} {g : Graph} :
    p ∈ (addDep module imp g dep).thirdKeys ↔
      p ∈ g.thirdKeys ∨ (p = imp ∧ classify module dep = DepClass.thirdParty) := by
  unfold addDep
  split_ifs with h1 h2 h3
  · constructor
    · exact Or.inl
    · rintro (h | ⟨rfl, hc⟩)
      · exact h
      · rw [classify_third_iff] at hc
        rw [h1] at hc
        simp at hc
  · constructor
    · exact Or.inl
    · rintro (h | ⟨rfl, hc⟩)
      · exact h
      · rw [classify_third_iff] at hc
        rw [h1] at hc
        simp at hc
  · rw [mem_pyInsert]
    constructor
    · rintro (h | rfl)
      · exact Or.inl h
      · exact Or.inr ⟨rfl,
          classify_third_iff.mpr ⟨Bool.not_eq_true _ ▸ h1, h3⟩⟩
    · rintro (h | ⟨rfl, -⟩)
      · exact Or.inl h
      · exact Or.inr rfl
  · constructor
    · exact Or.inl
    · rintro (h | ⟨rfl, hc⟩)
      · exact h
      · rw [classify_third_iff] at hc
        rw [hc.2] at h3
        exact absurd rfl h3

theorem addDep_obs_stdlibKeys {module imp dep p : String} {g : Graph} :
    p ∈ (addDep module imp g dep).stdlibKeys ↔
      p ∈ g.stdlibKeys ∨ (p = imp ∧ classify module dep = DepClass.stdlib) := by
  unfold addDep
  split_ifs with h1 h2 h3
  · constructor
    · exact Or.inl
    · rintro (h | ⟨rfl, hc⟩)
      · exact h
      · rw [classify_stdlib_iff] at hc
        rw [h1] at hc
        simp at hc
  · constructor
    · exact Or.inl
    · rintro (h | ⟨rfl, hc⟩)
      · exact h
      · rw [classify_stdlib_iff] at hc
        rw [h1] at hc
        simp at hc
  · constructor
    · exact Or.inl
    · rintro (h | ⟨rfl, hc⟩)
      · exact h
      · rw [classify_stdlib_iff] at hc
        rw [hc.2] at h3
        exact absurd h3 (by simp)
  · rw [mem_pyInsert]
    constructor
    · rintro (h | rfl)
      · exact Or.inl h
      · refine Or.inr ⟨rfl, classify_stdlib_iff.mpr ⟨Bool.not_eq_true _ ▸ h1, ?_⟩⟩
        exact Bool.not_eq_true _ ▸ h3
    · rintro (h | ⟨rfl, -⟩)
      · exact Or.inl h
      · exact Or.inr rfl

/-! ## Generic fold characterizations -/

theorem foldDeps_generic {module imp : String} (f : Graph → Prop) (step : String → Prop)
    (hadd : ∀ g dep, f (addDep module imp g dep) ↔ f g ∨ step dep) :
    ∀ (deps : List String) (g : Graph),
      f (deps.foldl (addDep module imp) g) ↔ f g ∨ ∃ x ∈ deps, step x := by
  intro deps
  induction deps with
  | nil => intro g; simp
  | cons x deps ih =>
    intro g
    rw [List.foldl_cons, ih, hadd]
    constructor
    · rintro ((h | h) | ⟨y, hy, hs⟩)
      · exact Or.inl h
      · exact Or.inr ⟨x, List.mem_cons_self x deps, h⟩
      · exact Or.inr ⟨y, List.mem_cons_of_mem x hy, hs⟩
    · rintro (h | ⟨y, hy, hs⟩)
      · exact Or.inl (Or.inl h)
      · rcases List.mem_cons.mp hy with rfl | hy
        · exact Or.inl (Or.inr hs)
        · exact Or.inr ⟨y, hy, hs⟩

theorem processRecord_generic {module : String} (f : Graph → Prop)
    (stepOf : PackageRecord → String → Prop)
    (hadd : ∀ (r : PackageRecord) (g : Graph) (dep : String),
      f (addDep module r.importPath g dep) ↔ f g ∨ stepOf r dep) :
    ∀ (g : Graph) (r : PackageRecord),
      f (processRecord module g r) ↔
        f g ∨ (strStarts r.importPath module = true ∧ ∃ x ∈ r.deps, stepOf r x) := by
  intro g r
  unfold processRecord
  split_ifs with hs
  · rw [foldDeps_generic f (stepOf r) (hadd r) r.deps g]
    simp [hs]
  · simp [hs]

theorem buildAux_generic {module : String} (f : Graph → Prop) (C : PackageRecord → Prop)
    (hrec : ∀ (g : Graph) (r : PackageRecord),
      f (processRecord module g r) ↔ f g ∨ C r) :
    ∀ (rs : List PackageRecord) (g : Graph),
      f (rs.foldl (processRecord module) g) ↔ f g ∨ ∃ r ∈ rs, C r := by
  intro rs
  induction rs with
  | nil => intro g; simp
  | cons r rs ih =>
    intro g
    rw [List.foldl_cons, ih, hrec]
    constructor
    · rintro ((h | h) | ⟨r', hr', hs⟩)
      · exact Or.inl h
      · exact Or.inr ⟨r, List.mem_cons_self r rs, h⟩
      · exact Or.inr ⟨r', List.mem_cons_of_mem r hr', hs⟩
    · rintro (h | ⟨r', hr', hs⟩)
      · exact Or.inl (Or.inl h)
      · rcases List.mem_cons.mp hr' with rfl | hr'
        · exact Or.inl (Or.inr hs)
        · exact Or.inr ⟨r', hr', hs⟩

/-! ## Built-graph characterizations

What `buildRecords` puts in each map and key list, in terms of the raw
records and `classify`. -/

theorem build_mem_internal {module p d : String} {rs : List PackageRecord} :
    d ∈ (buildRecords module rs).internal p ↔
      ∃ r ∈ rs, r.importPath = p ∧ strStarts p module = true ∧
        d ∈ r.deps ∧ classify module d = DepClass.internal ∧ d ≠ p := by
  unfold buildRecords
  rw [buildAux_generic (fun g => d ∈ g.internal p)
      (fun r => strStarts r.importPath module = true ∧
        ∃ x ∈ r.deps, p = r.importPath ∧ d = x ∧
          classify module d = DepClass.internal ∧ d ≠ r.importPath)
      (fun g r => processRecord_generic (fun g => d ∈ g.internal p)
        (fun r dep => p = r.importPath ∧ d = dep ∧
          classify module d = DepClass.internal ∧ d ≠ r.importPath)
        (fun r g dep => addDep_obs_internal) g r) rs emptyGraph]
  constructor
  · rintro (h | ⟨r, hr, hs, x, hx, rfl, rfl, hc, hne⟩)
    · simp [emptyGraph] at h
    · exact ⟨r, hr, rfl, hs, hx, hc, hne⟩
  · rintro ⟨r, hr, hip, hs, hx, hc, hne⟩
    subst hip
    exact Or.inr ⟨r, hr, hs, d, hx, rfl, rfl, hc, hne⟩

theorem build_mem_third {module p d : String} {rs : List PackageRecord} :
    d ∈ (buildRecords module rs).thirdParty p ↔
      ∃ r ∈ rs, r.importPath = p ∧ strStarts p module = true ∧
        d ∈ r.deps ∧ classify module d = DepClass.thirdParty := by
  unfold buildRecords
  rw [buildAux_generic (fun g => d ∈ g.thirdParty p)
      (fun r => strStarts r.importPath module = true ∧
        ∃ x ∈ r.deps, p = r.importPath ∧ d = x ∧
          classify module d = DepClass.thirdParty)
      (fun g r => processRecord_generic (fun g => d ∈ g.thirdParty p)
        (fun r dep => p = r.importPath ∧ d = dep ∧
          classify module d = DepClass.thirdParty)
        (fun r g dep => addDep_obs_third) g r) rs emptyGraph]
  constructor
  · rintro (h | ⟨r, hr, hs, x, hx, rfl, rfl, hc⟩)
    · simp [emptyGraph] at h
    · exact ⟨r, hr, rfl, hs, hx, hc⟩
  · rintro ⟨r, hr, hip, hs, hx, hc⟩
    subst hip
    exact Or.inr ⟨r, hr, hs, d, hx, rfl, rfl, hc⟩

theorem build_mem_stdlib {module p d : String} {rs : List PackageRecord} :
    d ∈ (buildRecords module rs).stdlib p ↔
      ∃ r ∈ rs, r.importPath = p ∧ strStarts p module = true ∧
        d ∈ r.deps ∧ classify module d = DepClass.stdlib := by
  unfold buildRecords
  rw [buildAux_generic (fun g => d ∈ g.stdlib p)
      (fun r => strStarts r.importPath module = true ∧
        ∃ x ∈ r.deps, p = r.importPath ∧ d = x ∧
          classify module d = DepClass.stdlib)
      (fun g r => processRecord_generic (fun g => d ∈ g.stdlib p)
        (fun r dep => p = r.importPath ∧ d = dep ∧
          classify module d = DepClass.stdlib)
        (fun r g dep => addDep_obs_stdlib) g r) rs emptyGraph]
  constructor
  · rintro (h | ⟨r, hr, hs, x, hx, rfl, rfl, hc⟩)
    · simp [emptyGraph] at h
    · exact ⟨r, hr, rfl, hs, hx, hc⟩
  · rintro ⟨r, hr, hip, hs, hx, hc⟩
    subst hip
    exact Or.inr ⟨r, hr, hs, d, hx, rfl, rfl, hc⟩

theorem build_mem_internalKeys {module p : String} {rs : List PackageRecord} :
    p ∈ (buildRecords module rs).internalKeys ↔
      ∃ r ∈ rs, r.importPath = p ∧ strStarts p module = true ∧
        ∃ x ∈ r.deps, classify module x = DepClass.internal ∧ x ≠ p := by
  unfold buildRecords
  rw [buildAux_generic (fun g => p ∈ g.internalKeys)
      (fun r => strStarts r.importPath module = true ∧
        ∃ x ∈ r.deps, p = r.importPath ∧
          classify module x = DepClass.internal ∧ x ≠ r.importPath)
      (fun g r => processRecord_generic (fun g => p ∈ g.internalKeys)
        (fun r dep => p = r.importPath ∧
          classify module dep = DepClass.internal ∧ dep ≠ r.importPath)
        (fun r g dep => addDep_obs_internalKeys) g r) rs emptyGraph]
  constructor
  · rintro (h | ⟨r, hr, hs, x, hx, rfl, hc, hne⟩)
    · simp [emptyGraph] at h
    · exact ⟨r, hr, rfl, hs, x, hx, hc, hne⟩
  · rintro ⟨r, hr, hip, hs, x, hx, hc, hne⟩
    subst hip
    exact Or.inr ⟨r, hr, hs, x, hx, rfl, hc, hne⟩

theorem build_mem_thirdKeys {module p : String} {rs : List PackageRecord} :
    p ∈ (buildRecords module rs).thirdKeys ↔
      ∃ r ∈ rs, r.importPath = p ∧ strStarts p module = true ∧
        ∃ x ∈ r.deps, classify module x = DepClass.thirdParty := by
  unfold buildRecords
  rw [buildAux_generic (fun g => p ∈ g.thirdKeys)
      (fun r => strStarts r.importPath module = true ∧
        ∃ x ∈ r.deps, p = r.importPath ∧
          classify module x = DepClass.thirdParty)
      (fun g r => processRecord_generic (fun g => p ∈ g.thirdKeys)
        (fun r dep => p = r.importPath ∧ classify module dep = DepClass.thirdParty)
        (fun r g dep => addDep_obs_thirdKeys) g r) rs emptyGraph]
  constructor
  · rintro (h | ⟨r, hr, hs, x, hx, rfl, hc⟩)
    · simp [emptyGraph] at h
    · exact ⟨r, hr, rfl, hs, x, hx, hc⟩
  · rintro ⟨r, hr, hip, hs, x, hx, hc⟩
    subst hip
    exact Or.inr ⟨r, hr, hs, x, hx, rfl, hc⟩

theorem build_mem_stdlibKeys {module p : String} {rs : List PackageRecord} :
    p ∈ (buildRecords module rs).stdlibKeys ↔
      ∃ r ∈ rs, r.importPath = p ∧ strStarts p module = true ∧
        ∃ x ∈ r.deps, classify module x = DepClass.stdlib := by
  unfold buildRecords
  rw [buildAux_generic (fun g => p ∈ g.stdlibKeys)
      (fun r => strStarts r.importPath module = true ∧
        ∃ x ∈ r.deps, p = r.importPath ∧
          classify module x = DepClass.stdlib)
      (fun g r => processRecord_generic (fun g => p ∈ g.stdlibKeys)
        (fun r dep => p = r.importPath ∧ classify module dep = DepClass.stdlib)
        (fun r g dep => addDep_obs_stdlibKeys) g r) rs emptyGraph]
  constructor
  · rintro (h | ⟨r, hr, hs, x, hx, rfl, hc⟩)
    · simp [emptyGraph] at h
    · exact ⟨r, hr, rfl, hs, x, hx, hc⟩
  · rintro ⟨r, hr, hip, hs, x, hx, hc⟩
    subst hip
    exact Or.inr ⟨r, hr, hs, x, hx, rfl, hc⟩

/-! ## Duplicate-freeness of the built graph -/

theorem addTo_nodup {m : String → List String} {k v : String}
    (h : ∀ p, (m p).Nodup) : ∀ p, (addTo m k v p).Nodup := by
  intro p
  unfold addTo
  split
  · exact nodup_pyInsert (h p)
  · exact h p

theorem addDep_nodup {module imp dep : String} {g : Graph}
    (h : (∀ p, (g.internal p).Nodup) ∧ (∀ p, (g.thirdParty p).Nodup) ∧
      (∀ p, (g.stdlib p).Nodup) ∧ g.internalKeys.Nodup ∧
      g.thirdKeys.Nodup ∧ g.stdlibKeys.Nodup) :
    (∀ p, ((addDep module imp g dep).internal p).Nodup) ∧
      (∀ p, ((addDep module imp g dep).thirdParty p).Nodup) ∧
      (∀ p, ((addDep module imp g dep).stdlib p).Nodup) ∧
      (addDep module imp g dep).internalKeys.Nodup ∧
      (addDep module imp g dep).thirdKeys.Nodup ∧
      (addDep module imp g dep).stdlibKeys.Nodup := by
  obtain ⟨h1, h2, h3, h4, h5, h6⟩ := h
  unfold addDep
  split_ifs with ha hb hc
  · exact ⟨h1, h2, h3, h4, h5, h6⟩
  · exact ⟨addTo_nodup h1, h2, h3, nodup_pyInsert h4, h5, h6⟩
  · exact ⟨h1, addTo_nodup h2, h3, h4, nodup_pyInsert h5, h6⟩
  · exact ⟨h1, h2, addTo_nodup h3, h4, h5, nodup_pyInsert h6⟩

theorem foldl_preserve {α β : Type} (Inv : β → Prop) (f : β → α → β)
    (hstep : ∀ b a, Inv b → Inv (f b a)) :
    ∀ (l : List α) (b : β), Inv b → Inv (l.foldl f b) := by
  intro l
  induction l with
  | nil => intro b h; exact h
  | cons a l ih => intro b h; exact ih _ (hstep b a h)

theorem build_nodup (module : String) (rs : List PackageRecord) :
    (∀ p, ((buildRecords module rs).internal p).Nodup) ∧
      (∀ p, ((buildRecords module rs).thirdParty p).Nodup) ∧
      (∀ p, ((buildRecords module rs).stdlib p).Nodup) ∧
      (buildRecords module rs).internalKeys.Nodup ∧
      (buildRecords module rs).thirdKeys.Nodup ∧
      (buildRecords module rs).stdlibKeys.Nodup := by
  unfold buildRecords
  refine foldl_preserve
    (fun g : Graph => (∀ p, (g.internal p).Nodup) ∧ (∀ p, (g.thirdParty p).Nodup) ∧
      (∀ p, (g.stdlib p).Nodup) ∧ g.internalKeys.Nodup ∧
      g.thirdKeys.Nodup ∧ g.stdlibKeys.Nodup)
    (processRecord module) ?_ rs emptyGraph ?_
  · intro g r hg
    unfold processRecord
    split_ifs with hs
    · exact foldl_preserve
        (fun g : Graph => (∀ p, (g.internal p).Nodup) ∧ (∀ p, (g.thirdParty p).Nodup) ∧
          (∀ p, (g.stdlib p).Nodup) ∧ g.internalKeys.Nodup ∧
          g.thirdKeys.Nodup ∧ g.stdlibKeys.Nodup)
        (addDep module r.importPath)
        (fun g dep hg => addDep_nodup hg) r.deps g hg
    · exact hg
  · refine ⟨fun p => ?_, fun p => ?_, fun p => ?_, ?_, ?_, ?_⟩ <;> simp [emptyGraph]

/-! ## Raw-dependency characterization -/

theorem mem_rawDeps {module p d : String} : ∀ {rs : List PackageRecord},
    d ∈ rawDeps module rs p ↔
      ∃ r ∈ rs, r.importPath = p ∧ strStarts p module = true ∧ d ∈ r.deps := by
  intro rs
  induction rs with
  | nil => simp [rawDeps]
  | cons r rs ih =>
    unfold rawDeps at ih ⊢
    by_cases hc : (r.importPath == p && strStarts r.importPath module) = true
    · rw [List.filter_cons, if_pos hc, List.foldr_cons]
      rw [Bool.and_eq_true, beq_iff_eq] at hc
      simp only [Finset.mem_union, List.mem_toFinset, ih]
      constructor
      · rintro (hd | ⟨r', hr', hip, hs, hd⟩)
        · refine ⟨r, List.mem_cons_self r rs, hc.1, ?_, hd⟩
          rw [← hc.1]
          exact hc.2
        · exact ⟨r', List.mem_cons_of_mem r hr', hip, hs, hd⟩
      · rintro ⟨r', hr', hip, hs, hd⟩
        rcases List.mem_cons.mp hr' with rfl | h
        · exact Or.inl hd
        · exact Or.inr ⟨r', h, hip, hs, hd⟩
    · rw [List.filter_cons, if_neg hc]
      rw [ih]
      constructor
      · rintro ⟨r', hr', hip, hs, hd⟩
        exact ⟨r', List.mem_cons_of_mem r hr', hip, hs, hd⟩
      · rintro ⟨r', hr', hip, hs, hd⟩
        rcases List.mem_cons.mp hr' with rfl | h
        · exfalso
          apply hc
          rw [Bool.and_eq_true, beq_iff_eq]
          refine ⟨hip, ?_⟩
          rw [hip]
          exact hs
        · exact ⟨r', h, hip, hs, hd⟩

/-! ## The record-level builder refines the value-level builder -/

theorem foldlM_strs (module imp : String) : ∀ (ds : List String) (g : Graph),
    (ds.map Json.str).foldlM
      (fun g e =>
        match e with
        | Json.str d => Except.ok (addDep module imp g d)
        | _ => Except.error PyError.attributeError) g
      = Except.ok (ds.foldl (addDep module imp) g) := by
  intro ds
  induction ds with
  | nil => intro g; rfl
  | cons d ds ih => intro g; simpa using ih (addDep module imp g d)

theorem processValue_recordToJson (module : String) (g : Graph) (r : PackageRecord) :
    processValue module g (recordToJson r) = Except.ok (processRecord module g r) := by
  obtain ⟨ip, deps⟩ := r
  have key : processValue module g (recordToJson ⟨ip, deps⟩) =
      (if strStarts ip module then
        match pyIter (if jsonTruthy (Json.arr (deps.map Json.str))
            then Json.arr (deps.map Json.str) else Json.arr []) with
        | Except.error e => Except.error e
        | Except.ok elems =>
          elems.foldlM
            (fun g e =>
              match e with
              | Json.str d => Except.ok (addDep module ip g d)
              | _ => Except.error PyError.attributeError)
            g
      else Except.ok g) := rfl
  rw [key]
  unfold processRecord
  by_cases hs : strStarts ip module = true
  · rw [if_pos hs, if_pos hs]
    by_cases ht : jsonTruthy (Json.arr (deps.map Json.str)) = true
    · rw [if_pos ht]
      exact foldlM_strs module ip deps g
    · rw [if_neg ht]
      cases deps with
      | nil => rfl
      | cons d ds => simp [jsonTruthy] at ht
  · rw [if_neg hs, if_neg hs]

theorem buildValues_records (module : String) (rs : List PackageRecord) :
    buildValues module (rs.map recordToJson) = Except.ok (buildRecords module rs) := by
  unfold buildValues buildRecords
  have main : ∀ (rs : List PackageRecord) (g : Graph),
      (rs.map recordToJson).foldlM (processValue module) g
        = Except.ok (rs.foldl (processRecord module) g) := by
    intro rs
    induction rs with
    | nil => intro g; rfl
    | cons r rs ih =>
      intro g
      simp only [List.map_cons, List.foldlM_cons, processValue_recordToJson,
        List.foldl_cons]
      simpa using ih (processRecord module g r)
  exact main rs emptyGraph

/-! ## Stream-loop lemmas -/

theorem skipPySpace_all : ∀ (cs : List Char) (pos : Nat),
    (∀ c ∈ cs, pyIsSpace c = true) → (skipPySpace pos cs).2 = [] := by
  intro cs
  induction cs with
  | nil => intro pos _; rfl
  | cons c cs ih =>
    intro pos h
    unfold skipPySpace
    rw [if_pos (h c (List.mem_cons_self c cs))]
    exact ih (pos + 1) (fun x hx => h x (List.mem_cons_of_mem c hx))

/-! ## Permutation transfer for the report-stability claim -/

theorem exists_transfer_pointwise {rs₁ rs₂ : List PackageRecord}
    (h12 : List.Forall₂ recEquiv rs₁ rs₂)
    (Q : String → List String → Prop)
    (hQ : ∀ ip l₁ l₂, l₁.Perm l₂ → (Q ip l₁ ↔ Q ip l₂)) :
    ((∃ r ∈ rs₁, Q r.importPath r.deps) ↔ ∃ r ∈ rs₂, Q r.importPath r.deps) := by
  induction h12 with
  | nil => simp
  | @cons a b l₁ l₂ hab h ih =>
    constructor
    · rintro ⟨r, hr, hq⟩
      rcases List.mem_cons.mp hr with rfl | hr
      · refine ⟨b, List.mem_cons_self b l₂, ?_⟩
        rw [← hab.1]
        exact (hQ r.importPath r.deps b.deps hab.2).mp hq
      · obtain ⟨s, hs, hq'⟩ := ih.mp ⟨r, hr, hq⟩
        exact ⟨s, List.mem_cons_of_mem b hs, hq'⟩
    · rintro ⟨s, hs, hq⟩
      rcases List.mem_cons.mp hs with rfl | hs
      · refine ⟨a, List.mem_cons_self a l₁, ?_⟩
        rw [hab.1]
        exact (hQ s.importPath a.deps s.deps hab.2).mpr hq
      · obtain ⟨r, hr, hq'⟩ := ih.mpr ⟨s, hs, hq⟩
        exact ⟨r, List.mem_cons_of_mem a hr, hq'⟩

theorem exists_transfer {rs₁ rs₂ rs₃ : List PackageRecord}
    (h12 : List.Forall₂ recEquiv rs₁ rs₂) (h23 : rs₂.Perm rs₃)
    (Q : String → List String → Prop)
    (hQ : ∀ ip l₁ l₂, l₁.Perm l₂ → (Q ip l₁ ↔ Q ip l₂)) :
    ((∃ r ∈ rs₁, Q r.importPath r.deps) ↔ ∃ r ∈ rs₃, Q r.importPath r.deps) := by
  refine (exists_transfer_pointwise h12 Q hQ).trans ?_
  constructor
  · rintro ⟨r, hr, hq⟩
    exact ⟨r, h23.mem_iff.mp hr, hq⟩
  · rintro ⟨r, hr, hq⟩
    exact ⟨r, h23.mem_iff.mpr hr, hq⟩

/-! ## Render congruence helpers -/

theorem perm_of_nodup_mem_iff {l₁ l₂ : List String} (h₁ : l₁.Nodup) (h₂ : l₂.Nodup)
    (h : ∀ d, d ∈ l₁ ↔ d ∈ l₂) : l₁.Perm l₂ :=
  List.perm_of_nodup_nodup_toFinset_eq h₁ h₂
    (Finset.ext fun d => by simp only [List.mem_toFinset]; exact h d)

theorem sortedStrs_eq_of_mem_iff {l₁ l₂ : List String} (h₁ : l₁.Nodup) (h₂ : l₂.Nodup)
    (h : ∀ d, d ∈ l₁ ↔ d ∈ l₂) : sortedStrs l₁ = sortedStrs l₂ :=
  sortedStrs_congr (perm_of_nodup_mem_iff h₁ h₂ h)

theorem mem_pkgsList {g : Graph} {p : String} :
    p ∈ pkgsList g ↔
      p ∈ g.internalKeys ∨ p ∈ g.stdlibKeys ∨ p ∈ g.thirdKeys := by
  unfold pkgsList
  rw [mem_sortedStrs, mem_pyDedup]
  simp [List.mem_append, or_assoc]

theorem renderPkg_congr {cap : Nat} {g₁ g₂ : Graph} {p : String}
    (hi : sortedStrs (g₁.internal p) = sortedStrs (g₂.internal p))
    (ht : sortedStrs (g₁.thirdParty p) = sortedStrs (g₂.thirdParty p))
    (hs : sortedStrs (g₁.stdlib p) = sortedStrs (g₂.stdlib p)) :
    renderPkg cap g₁ p = renderPkg cap g₂ p := by
  unfold renderPkg
  rw [hi, ht, hs]

/-! # The claims -/

set_option maxRecDepth 200000

/-- C1 counterexample. The claim states that, with module prefix
`example.com/mod`, the dependency `example.com/mod2/a` is classified
ThirdParty because scope and classification respect a path boundary. On
the code it is classified Internal: `dep.startswith(MODULE)` is a plain
prefix test, so the dependency lands in the internal set of the built
graph and not in the third-party set. -/
theorem boundary_rule_counterexample :
    "example.com/mod2/a" ∈ (buildRecords "example.com/mod"
        [⟨"example.com/mod/a", ["example.com/mod2/a"]⟩]).internal "example.com/mod/a"
    ∧ "example.com/mod2/a" ∉ (buildRecords "example.com/mod"
        [⟨"example.com/mod/a", ["example.com/mod2/a"]⟩]).thirdParty "example.com/mod/a"
    ∧ classify "example.com/mod" "example.com/mod2/a" = DepClass.internal := by
  refine ⟨?_, ?_, ?_⟩ <;> decide

/-- C1 amended: scope and Internal classification use a plain
`startswith` prefix test with no path-boundary check — every graph node's
identifier starts with the module prefix (plain prefix), a dependency is
Internal exactly when its identifier starts with the module prefix, and
in particular `example.com/mod2/a` against module `example.com/mod` is
classified Internal. -/
theorem scope_classification_plain_match (module d p : String)
    (rs : List PackageRecord)
    (hp : p ∈ pkgsList (buildRecords module rs)) :
    strStarts p module = true
    ∧ (classify module d = DepClass.internal ↔ strStarts d module = true)
    ∧ classify "example.com/mod" "example.com/mod2/a" = DepClass.internal := by
  refine ⟨?_, classify_internal_iff, by decide⟩
  rw [mem_pkgsList] at hp
  rcases hp with h | h | h
  · obtain ⟨r, -, -, hs, -⟩ := build_mem_internalKeys.mp h
    exact hs
  · obtain ⟨r, -, -, hs, -⟩ := build_mem_stdlibKeys.mp h
    exact hs
  · obtain ⟨r, -, -, hs, -⟩ := build_mem_thirdKeys.mp h
    exact hs

/-- C1 witness: the amended theorem at scenario 1's record `a`. -/
theorem scope_classification_plain_match_witness :
    strStarts "example.com/mod/a" "example.com/mod" = true
    ∧ classify "example.com/mod" "example.com/mod2/a" = DepClass.internal := by
  have h := scope_classification_plain_match "example.com/mod" "x"
    "example.com/mod/a" [recA] (by decide)
  exact ⟨h.1, h.2.2⟩

/-- C2 counterexample. The claim states that every in-scope record
becomes a node and a rendered section even with an empty dependency
list, and that scenario 1's graph has two nodes with
`example.com/mod/b` present. On the code the package list is the key
set of the three dependency maps, so record `b` (empty `Deps`) never
becomes a key: scenario 1 yields exactly one package and no section for
`b`. -/
theorem empty_deps_record_counterexample :
    "example.com/mod/b" ∉ pkgsList (buildRecords "example.com/mod" [recA, recB])
    ∧ pkgsList (buildRecords "example.com/mod" [recA, recB]) = ["example.com/mod/a"]
    ∧ "## `example.com/mod/b`\n\n"
        ∉ renderChunks (buildRecords "example.com/mod" [recA, recB]) 80 := by
  refine ⟨?_, ?_, ?_⟩ <;> decide

/-- C2 amended: a record becomes a graph key and yields a package
section exactly when it is in scope and has at least one dependency
different from its own import path; an in-scope record with an empty
dependency list yields no node and no section, so scenario 1's graph has
the single package `example.com/mod/a` and the report has exactly that
one section. -/
theorem section_iff_classified_dep (module : String) (rs : List PackageRecord)
    (p : String) :
    (p ∈ pkgsList (buildRecords module rs) ↔
      ∃ r ∈ rs, r.importPath = p ∧ strStarts p module = true ∧
        ∃ d ∈ r.deps, d ≠ p)
    ∧ pkgsList (buildRecords "example.com/mod" [recA, recB]) = ["example.com/mod/a"]
    ∧ renderChunks (buildRecords "example.com/mod" [recA, recB]) 80
        = headerChunks
          ++ renderPkg 80 (buildRecords "example.com/mod" [recA, recB])
              "example.com/mod/a" := by
  have hpk : pkgsList (buildRecords "example.com/mod" [recA, recB])
      = ["example.com/mod/a"] := by decide
  refine ⟨?_, hpk, ?_⟩
  · rw [mem_pkgsList]
    constructor
    · rintro (h | h | h)
      · obtain ⟨r, hr, hip, hs, x, hx, hc, hne⟩ := build_mem_internalKeys.mp h
        exact ⟨r, hr, hip, hs, x, hx, hne⟩
      · obtain ⟨r, hr, hip, hs, x, hx, hc⟩ := build_mem_stdlibKeys.mp h
        refine ⟨r, hr, hip, hs, x, hx, ?_⟩
        intro hxp
        rw [hxp, classify_internal_iff.mpr hs] at hc
        simp at hc
      · obtain ⟨r, hr, hip, hs, x, hx, hc⟩ := build_mem_thirdKeys.mp h
        refine ⟨r, hr, hip, hs, x, hx, ?_⟩
        intro hxp
        rw [hxp, classify_internal_iff.mpr hs] at hc
        simp at hc
    · rintro ⟨r, hr, hip, hs, x, hx, hne⟩
      cases hc : classify module x with
      | internal =>
        exact Or.inl (build_mem_internalKeys.mpr ⟨r, hr, hip, hs, x, hx, hc, hne⟩)
      | stdlib =>
        exact Or.inr (Or.inl (build_mem_stdlibKeys.mpr ⟨r, hr, hip, hs, x, hx, hc⟩))
      | thirdParty =>
        exact Or.inr (Or.inr (build_mem_thirdKeys.mpr ⟨r, hr, hip, hs, x, hx, hc⟩))
  · unfold renderChunks
    rw [hpk]
    simp

/-- C3: for every package, the three edge sets drop self-edges, are
pairwise disjoint, and together contain exactly the raw dependency
identifiers of the in-scope records for that package minus the package
itself — each dependency is classified into exactly one set. -/
theorem edge_sets_partition_raw_deps (module : String) (rs : List PackageRecord)
    (p : String) :
    p ∉ (buildRecords module rs).internal p
    ∧ p ∉ (buildRecords module rs).thirdParty p
    ∧ p ∉ (buildRecords module rs).stdlib p
    ∧ List.Disjoint ((buildRecords module rs).internal p)
        ((buildRecords module rs).thirdParty p)
    ∧ List.Disjoint ((buildRecords module rs).internal p)
        ((buildRecords module rs).stdlib p)
    ∧ List.Disjoint ((buildRecords module rs).thirdParty p)
        ((buildRecords module rs).stdlib p)
    ∧ ((buildRecords module rs).internal p).toFinset
        ∪ ((buildRecords module rs).thirdParty p).toFinset
        ∪ ((buildRecords module rs).stdlib p).toFinset
        = rawDeps module rs p \ {p} := by
  refine ⟨?_, ?_, ?_, ?_, ?_, ?_, ?_⟩
  · intro h
    obtain ⟨r, -, -, -, -, -, hne⟩ := build_mem_internal.mp h
    exact hne rfl
  · intro h
    obtain ⟨r, -, -, hs, -, hc⟩ := build_mem_third.mp h
    rw [classify_internal_iff.mpr hs] at hc
    simp at hc
  · intro h
    obtain ⟨r, -, -, hs, -, hc⟩ := build_mem_stdlib.mp h
    rw [classify_internal_iff.mpr hs] at hc
    simp at hc
  · intro d h1 h2
    obtain ⟨r, -, -, -, -, hc1, -⟩ := build_mem_internal.mp h1
    obtain ⟨r', -, -, -, -, hc2⟩ := build_mem_third.mp h2
    rw [hc1] at hc2
    simp at hc2
  · intro d h1 h2
    obtain ⟨r, -, -, -, -, hc1, -⟩ := build_mem_internal.mp h1
    obtain ⟨r', -, -, -, -, hc2⟩ := build_mem_stdlib.mp h2
    rw [hc1] at hc2
    simp at hc2
  · intro d h1 h2
    obtain ⟨r, -, -, -, -, hc1⟩ := build_mem_third.mp h1
    obtain ⟨r', -, -, -, -, hc2⟩ := build_mem_stdlib.mp h2
    rw [hc1] at hc2
    simp at hc2
  · ext d
    simp only [Finset.mem_union, List.mem_toFinset, Finset.mem_sdiff,
      Finset.mem_singleton, mem_rawDeps, build_mem_internal, build_mem_third,
      build_mem_stdlib]
    constructor
    · rintro ((⟨r, hr, hip, hs, hd, hc, hne⟩ | ⟨r, hr, hip, hs, hd, hc⟩) |
        ⟨r, hr, hip, hs, hd, hc⟩)
      · exact ⟨⟨r, hr, hip, hs, hd⟩, hne⟩
      · refine ⟨⟨r, hr, hip, hs, hd⟩, ?_⟩
        intro hdp
        rw [hdp, classify_internal_iff.mpr hs] at hc
        simp at hc
      · refine ⟨⟨r, hr, hip, hs, hd⟩, ?_⟩
        intro hdp
        rw [hdp, classify_internal_iff.mpr hs] at hc
        simp at hc
    · rintro ⟨⟨r, hr, hip, hs, hd⟩, hne⟩
      cases hc : classify module d with
      | internal => exact Or.inl (Or.inl ⟨r, hr, hip, hs, hd, rfl, hne⟩)
      | thirdParty => exact Or.inl (Or.inr ⟨r, hr, hip, hs, hd, rfl⟩)
      | stdlib => exact Or.inr ⟨r, hr, hip, hs, hd, rfl⟩

/-- C4 counterexample. The claim states that a decoded value that is not
an object is retained as an empty record that the builder skips, so the
pipeline does not fail. On the code, the builder calls `.get` on the
decoded value, so a bare number crashes the program with an
AttributeError and no report is produced. -/
theorem bare_number_crashes_pipeline :
    pipeline "5" = Except.error (PipeError.py PyError.attributeError) := rfl

/-- C4 amended: the builder fails with an attribute error on every
decoded value that is not an object (number, string, array, null,
boolean), and on an object whose `ImportPath` is not a string; an object
with both fields missing is tolerated and leaves the graph unchanged. -/
theorem non_object_value_fails_builder (module : String) (g : Graph)
    (lex t : String) (xs : List Json) (b : Bool) :
    processValue module g (Json.num lex) = Except.error PyError.attributeError
    ∧ processValue module g (Json.str t) = Except.error PyError.attributeError
    ∧ processValue module g (Json.arr xs) = Except.error PyError.attributeError
    ∧ processValue module g Json.null = Except.error PyError.attributeError
    ∧ processValue module g (Json.bool b) = Except.error PyError.attributeError
    ∧ processValue module g (Json.obj [("ImportPath", Json.num lex)])
        = Except.error PyError.attributeError
    ∧ processValue module g (Json.obj []) = Except.ok g := by
  refine ⟨rfl, rfl, rfl, rfl, rfl, rfl, ?_⟩
  have key : processValue module g (Json.obj [])
      = (if strStarts "" module then Except.ok g else Except.ok g) := rfl
  rw [key, ite_self]

/-- C5: a failure of `raw_decode` at the current non-whitespace offset
aborts the stream loop immediately with that `DecodeError`, offset and
message intact; a value decoded earlier is discarded when a later
iteration fails (the loop result is the bare error, never a partial
list), and a failed decode yields a decode error from the whole
pipeline — no graph, no report. -/
theorem decode_error_aborts_pipeline (module : String) (cap fuel pos : Nat)
    (cs : List Char) (e : DecodeError)
    (h1 : (skipPySpace pos cs).2 ≠ [])
    (h2 : rawDecode (skipPySpace pos cs).1 (skipPySpace pos cs).2 = Except.error e) :
    decodeStream (fuel + 1) pos cs = Except.error e
    ∧ (∀ s : String, decodeString s = Except.error e →
        pipelineWith module cap s = Except.error (PipeError.decode e))
    ∧ (∀ (fuel2 pos2 : Nat) (cs2 : List Char) (v : Json) (pos3 : Nat) (cs3 : List Char),
        (skipPySpace pos2 cs2).2 ≠ [] →
        rawDecode (skipPySpace pos2 cs2).1 (skipPySpace pos2 cs2).2
          = Except.ok (v, pos3, cs3) →
        decodeStream fuel2 pos3 cs3 = Except.error e →
        decodeStream (fuel2 + 1) pos2 cs2 = Except.error e) := by
  refine ⟨?_, ?_, ?_⟩
  · rcases hsp : skipPySpace pos cs with ⟨pos1, cs1⟩
    rw [hsp] at h1 h2
    dsimp only at h1 h2
    cases cs1 with
    | nil => exact absurd rfl h1
    | cons c cs1 =>
      simp only [decodeStream, hsp]
      rw [h2]
  · intro s h
    unfold pipelineWith
    rw [h]
  · intro fuel2 pos2 cs2 v pos3 cs3 hne hok hrec
    rcases hsp : skipPySpace pos2 cs2 with ⟨q, ds⟩
    rw [hsp] at hne hok
    dsimp only at hne hok
    cases ds with
    | nil => exact absurd rfl hne
    | cons c ds =>
      simp only [decodeStream, hsp, hok, hrec]

/-- C5 witness: a buffer whose second value is a truncated object; the
error carries the offset of the malformed syntax, the loop discards the
first decoded value, and the pipeline fails with the decode error. -/
theorem decode_error_aborts_pipeline_witness :
    decodeStream 1 3 "\x7b\"ImportPath\"".toList
      = Except.error ⟨16, "Expecting colon delimiter"⟩
    ∧ pipelineWith "github.com/example/ktl" 80 "\x7b\x7d \x7b\"ImportPath\""
        = Except.error (PipeError.decode ⟨16, "Expecting colon delimiter"⟩) := by
  have h := decode_error_aborts_pipeline "github.com/example/ktl" 80 0 3
    "\x7b\"ImportPath\"".toList ⟨16, "Expecting colon delimiter"⟩
    (by decide) rfl
  exact ⟨h.1, h.2.1 "\x7b\x7d \x7b\"ImportPath\"" rfl⟩

/-- Helper for C6: `dropWhile` either empties the list or stops at a
character that fails the predicate. -/
theorem dropWhile_head_or_nil (p : Char → Bool) : ∀ l : List Char,
    l.dropWhile p = [] ∨ ∃ c cs, l.dropWhile p = c :: cs ∧ p c = false := by
  intro l
  induction l with
  | nil => exact Or.inl rfl
  | cons c cs ih =>
    rw [List.dropWhile_cons]
    split_ifs with hp
    · exact ih
    · exact Or.inr ⟨c, cs, rfl, by simpa using hp⟩

/-- C6: for an out-of-scope dependency, classification is decided by the
first path segment — the characters before the first `/` (the whole
identifier when there is no separator): a literal dot in that segment
means ThirdParty, otherwise StdLib. `classify` is a function of the
identifier and the module name alone. -/
theorem classify_out_of_scope_first_segment (module d : String)
    (h : strStarts d module = false) :
    classify module d
      = (if dottedFirst d then DepClass.thirdParty else DepClass.stdlib)
    ∧ (∀ c ∈ firstSeg d, c ≠ '/')
    ∧ (firstSeg d = d.toList ∨ ∃ rest, d.toList = firstSeg d ++ '/' :: rest)
    ∧ (dottedFirst d = true ↔ '.' ∈ firstSeg d) := by
  refine ⟨?_, ?_, ?_, ?_⟩
  · simp [classify, h]
  · intro c hc
    have h2 := List.mem_takeWhile_imp hc
    simpa using h2
  · unfold firstSeg
    rcases dropWhile_head_or_nil (fun c => c != '/') d.toList with hnil |
      ⟨c, cs, hcons, hc⟩
    · left
      conv_rhs => rw [← List.takeWhile_append_dropWhile
        (p := fun c => c != '/') (l := d.toList)]
      rw [hnil, List.append_nil]
    · right
      refine ⟨cs, ?_⟩
      have hc' : c = '/' := by simpa using hc
      conv_lhs => rw [← List.takeWhile_append_dropWhile
        (p := fun c => c != '/') (l := d.toList)]
      rw [hcons, hc']
  · unfold dottedFirst
    simp [List.any_eq_true]

/-- C6 witness: the theorem at `github.com/x/y` (dotted first segment →
ThirdParty), plus the StdLib case at `fmt`. -/
theorem classify_out_of_scope_first_segment_witness :
    classify "example.com/mod" "github.com/x/y"
      = (if dottedFirst "github.com/x/y" then DepClass.thirdParty
         else DepClass.stdlib)
    ∧ classify "example.com/mod" "github.com/x/y" = DepClass.thirdParty
    ∧ classify "example.com/mod" "fmt" = DepClass.stdlib := by
  have h := classify_out_of_scope_first_segment "example.com/mod" "github.com/x/y"
    (by decide)
  exact ⟨h.1, by decide, by decide⟩

/-- C7: when a package's third-party set is larger than the cap, the
rendered block is exactly the first `cap` entries of the sorted list,
each as a dependency line, followed by one marker naming the `k - cap`
remainder; the listed entries number exactly `cap` and are sorted. -/
theorem third_party_truncation (g : Graph) (p : String) (cap : Nat)
    (h : cap < (sortedStrs (g.thirdParty p)).length) :
    thirdBlock cap (sortedStrs (g.thirdParty p))
      = ((sortedStrs (g.thirdParty p)).take cap).map fmtDep
        ++ ["- ... (" ++ toString ((sortedStrs (g.thirdParty p)).length - cap)
            ++ " more)\n"]
    ∧ ((sortedStrs (g.thirdParty p)).take cap).length = cap
    ∧ List.Sorted strRel ((sortedStrs (g.thirdParty p)).take cap)
    ∧ renderPkg cap g p
        = ["## `" ++ p ++ "`\n\n", "**Internal deps**\n\n"]
          ++ internalBlock (sortedStrs (g.internal p)) ++ ["\n"]
          ++ ["**Third-party deps**\n\n"]
          ++ (((sortedStrs (g.thirdParty p)).take cap).map fmtDep
              ++ ["- ... (" ++ toString ((sortedStrs (g.thirdParty p)).length - cap)
                  ++ " more)\n"]) ++ ["\n"]
          ++ ["**Stdlib deps**\n\n"]
          ++ stdlibBlock (sortedStrs (g.stdlib p)) ++ ["\n"] := by
  have hne : (sortedStrs (g.thirdParty p)).isEmpty = false := by
    cases hE : sortedStrs (g.thirdParty p) with
    | nil => rw [hE] at h; simp at h
    | cons a l => rfl
  have hblock : thirdBlock cap (sortedStrs (g.thirdParty p))
      = ((sortedStrs (g.thirdParty p)).take cap).map fmtDep
        ++ ["- ... (" ++ toString ((sortedStrs (g.thirdParty p)).length - cap)
            ++ " more)\n"] := by
    unfold thirdBlock
    simp only [hne, Bool.false_eq_true, if_false]
    rw [if_pos h]
  refine ⟨hblock, ?_, ?_, ?_⟩
  · rw [List.length_take]
    omega
  · exact List.Pairwise.sublist (List.take_sublist cap _) (sortedStrs_sorted _)
  · unfold renderPkg
    rw [hblock]

/-- C7 witness: scenario 4 — ninety distinct third-party dependencies,
cap 80: exactly eighty sorted lines plus a marker reading "10 more". -/
theorem third_party_truncation_witness :
    80 < (sortedStrs ((buildRecords "example.com/mod" [rec90]).thirdParty
        "example.com/mod/a")).length
    ∧ (sortedStrs ((buildRecords "example.com/mod" [rec90]).thirdParty
        "example.com/mod/a")).length = 90
    ∧ thirdBlock 80 (sortedStrs ((buildRecords "example.com/mod" [rec90]).thirdParty
        "example.com/mod/a"))
        = ((sortedStrs ((buildRecords "example.com/mod" [rec90]).thirdParty
            "example.com/mod/a")).take 80).map fmtDep ++ ["- ... (10 more)\n"]
    ∧ ((sortedStrs ((buildRecords "example.com/mod" [rec90]).thirdParty
        "example.com/mod/a")).take 80).length = 80 := by
  have h80 : 80 < (sortedStrs ((buildRecords "example.com/mod" [rec90]).thirdParty
      "example.com/mod/a")).length := by decide
  have hlen : (sortedStrs ((buildRecords "example.com/mod" [rec90]).thirdParty
      "example.com/mod/a")).length = 90 := by decide
  have h := third_party_truncation (buildRecords "example.com/mod" [rec90])
    "example.com/mod/a" 80 h80
  refine ⟨h80, hlen, ?_, h.2.1⟩
  rw [h.1, hlen]
  rfl

/-- C8: the package sections of the report appear in strictly ascending
identifier order (the package list is sorted with no duplicates), the
chunk sequence is the header followed by one section per package in that
order, and within a section the internal and third-party lists are
sorted ascending. -/
theorem report_sections_sorted (g : Graph) (cap : Nat) (p : String) :
    List.Sorted (fun a b => strRel a b ∧ a ≠ b) (pkgsList g)
    ∧ renderChunks g cap = headerChunks ++ (pkgsList g).flatMap (renderPkg cap g)
    ∧ List.Sorted strRel (sortedStrs (g.internal p))
    ∧ List.Sorted strRel (sortedStrs (g.thirdParty p))
    ∧ renderPkg cap g p
        = ["## `" ++ p ++ "`\n\n", "**Internal deps**\n\n"]
          ++ internalBlock (sortedStrs (g.internal p)) ++ ["\n"]
          ++ ["**Third-party deps**\n\n"]
          ++ thirdBlock cap (sortedStrs (g.thirdParty p)) ++ ["\n"]
          ++ ["**Stdlib deps**\n\n"]
          ++ stdlibBlock (sortedStrs (g.stdlib p)) ++ ["\n"] := by
  refine ⟨?_, rfl, sortedStrs_sorted _, sortedStrs_sorted _, rfl⟩
  exact sortedStrs_sorted_strict (nodup_pyDedup _)

/-- C9: the decoder accepts a bare concatenation of self-delimiting
values with arbitrary interleaved whitespace and no enclosing list
syntax, in stream order (scenario 1's buffer, no separator, decodes to
its two records in order); a whitespace-only or empty buffer decodes to
no records, builds the empty graph, and the pipeline renders only the
static header. -/
theorem stream_decode_whitespace_and_order (module : String) (cap : Nat) (s : String)
    (hws : s.toList.all pyIsSpace = true) :
    decodeString s = Except.ok []
    ∧ pipelineWith module cap s = Except.ok (String.join headerChunks)
    ∧ buildValues module [] = Except.ok emptyGraph
    ∧ renderChunks emptyGraph cap = headerChunks
    ∧ decodeString scenario1Input
        = Except.ok [recordToJson recA, recordToJson recB] := by
  have hdec : decodeString s = Except.ok [] := by
    unfold decodeString
    rcases hsp : skipPySpace 0 s.toList with ⟨pos1, cs1⟩
    have hsk : (skipPySpace 0 s.toList).2 = [] :=
      skipPySpace_all s.toList 0 (fun c hc => List.all_eq_true.mp hws c hc)
    rw [hsp] at hsk
    dsimp only at hsk
    subst hsk
    simp only [decodeStream, hsp]
  have hempty : renderChunks emptyGraph cap = headerChunks := by
    unfold renderChunks
    have hpk : pkgsList emptyGraph = [] := rfl
    rw [hpk]
    simp
  refine ⟨hdec, ?_, rfl, hempty, rfl⟩
  have h1 : pipelineWith module cap s = Except.ok (renderText emptyGraph cap) := by
    unfold pipelineWith
    rw [hdec]
    rfl
  rw [h1]
  unfold renderText
  rw [hempty]

/-- C9 witness: the theorem at a whitespace-only buffer. -/
theorem stream_decode_whitespace_and_order_witness :
    decodeString " \n\t " = Except.ok []
    ∧ pipelineWith "example.com/mod" 80 " \n\t "
        = Except.ok (String.join headerChunks) := by
  have h := stream_decode_whitespace_and_order "example.com/mod" 80 " \n\t "
    (by decide)
  exact ⟨h.1, h.2.1⟩

/-- C10: the rendered report is invariant under reordering the record
stream and under reordering each record's dependency list — the two
builds render byte-identical text, because the edge sets deduplicate,
records with one import path merge, and every emitted list is sorted. -/
theorem render_invariant_under_permutation (module : String) (cap : Nat)
    (rs₁ rs₂ rs₃ : List PackageRecord)
    (h12 : List.Forall₂ recEquiv rs₁ rs₂) (h23 : rs₂.Perm rs₃) :
    renderText (buildRecords module rs₁) cap
      = renderText (buildRecords module rs₃) cap := by
  have hInt : ∀ p d, d ∈ (buildRecords module rs₁).internal p ↔
      d ∈ (buildRecords module rs₃).internal p := by
    intro p d
    rw [build_mem_internal, build_mem_internal]
    exact exists_transfer h12 h23
      (fun ip l => ip = p ∧ strStarts p module = true ∧ d ∈ l ∧
        classify module d = DepClass.internal ∧ d ≠ p)
      (fun ip l₁ l₂ hp => by simp only [hp.mem_iff])
  have hTh : ∀ p d, d ∈ (buildRecords module rs₁).thirdParty p ↔
      d ∈ (buildRecords module rs₃).thirdParty p := by
    intro p d
    rw [build_mem_third, build_mem_third]
    exact exists_transfer h12 h23
      (fun ip l => ip = p ∧ strStarts p module = true ∧ d ∈ l ∧
        classify module d = DepClass.thirdParty)
      (fun ip l₁ l₂ hp => by simp only [hp.mem_iff])
  have hSt : ∀ p d, d ∈ (buildRecords module rs₁).stdlib p ↔
      d ∈ (buildRecords module rs₃).stdlib p := by
    intro p d
    rw [build_mem_stdlib, build_mem_stdlib]
    exact exists_transfer h12 h23
      (fun ip l => ip = p ∧ strStarts p module = true ∧ d ∈ l ∧
        classify module d = DepClass.stdlib)
      (fun ip l₁ l₂ hp => by simp only [hp.mem_iff])
  have hKI : ∀ q, q ∈ (buildRecords module rs₁).internalKeys ↔
      q ∈ (buildRecords module rs₃).internalKeys := by
    intro q
    rw [build_mem_internalKeys, build_mem_internalKeys]
    exact exists_transfer h12 h23
      (fun ip l => ip = q ∧ strStarts q module = true ∧ ∃ x ∈ l,
        classify module x = DepClass.internal ∧ x ≠ q)
      (fun ip l₁ l₂ hp => by simp only [hp.mem_iff])
  have hKS : ∀ q, q ∈ (buildRecords module rs₁).stdlibKeys ↔
      q ∈ (buildRecords module rs₃).stdlibKeys := by
    intro q
    rw [build_mem_stdlibKeys, build_mem_stdlibKeys]
    exact exists_transfer h12 h23
      (fun ip l => ip = q ∧ strStarts q module = true ∧ ∃ x ∈ l,
        classify module x = DepClass.stdlib)
      (fun ip l₁ l₂ hp => by simp only [hp.mem_iff])
  have hKT : ∀ q, q ∈ (buildRecords module rs₁).thirdKeys ↔
      q ∈ (buildRecords module rs₃).thirdKeys := by
    intro q
    rw [build_mem_thirdKeys, build_mem_thirdKeys]
    exact exists_transfer h12 h23
      (fun ip l => ip = q ∧ strStarts q module = true ∧ ∃ x ∈ l,
        classify module x = DepClass.thirdParty)
      (fun ip l₁ l₂ hp => by simp only [hp.mem_iff])
  have hn₁ := build_nodup module rs₁
  have hn₃ := build_nodup module rs₃
  have hsortI : ∀ p, sortedStrs ((buildRecords module rs₁).internal p)
      = sortedStrs ((buildRecords module rs₃).internal p) :=
    fun p => sortedStrs_eq_of_mem_iff (hn₁.1 p) (hn₃.1 p) (hInt p)
  have hsortT : ∀ p, sortedStrs ((buildRecords module rs₁).thirdParty p)
      = sortedStrs ((buildRecords module rs₃).thirdParty p) :=
    fun p => sortedStrs_eq_of_mem_iff (hn₁.2.1 p) (hn₃.2.1 p) (hTh p)
  have hsortS : ∀ p, sortedStrs ((buildRecords module rs₁).stdlib p)
      = sortedStrs ((buildRecords module rs₃).stdlib p) :=
    fun p => sortedStrs_eq_of_mem_iff (hn₁.2.2.1 p) (hn₃.2.2.1 p) (hSt p)
  have hkeys : pkgsList (buildRecords module rs₁)
      = pkgsList (buildRecords module rs₃) := by
    unfold pkgsList
    apply sortedStrs_eq_of_mem_iff (nodup_pyDedup _) (nodup_pyDedup _)
    intro q
    simp only [mem_pyDedup, List.mem_append]
    rw [hKI q, hKS q, hKT q]
  unfold renderText renderChunks
  rw [hkeys]
  have hfun : renderPkg cap (buildRecords module rs₁)
      = renderPkg cap (buildRecords module rs₃) :=
    funext fun p => renderPkg_congr (hsortI p) (hsortT p) (hsortS p)
  rw [hfun]

/-- C10 witness: scenario 1's records with record `a`'s dependency list
reordered and the record stream reversed render identically. -/
theorem render_invariant_under_permutation_witness :
    renderText (buildRecords "example.com/mod" [recA, recB]) 80
      = renderText (buildRecords "example.com/mod" [recB, recA2]) 80 := by
  refine render_invariant_under_permutation "example.com/mod" 80
    [recA, recB] [recA2, recB] [recB, recA2] ?_ ?_
  · refine List.Forall₂.cons ⟨rfl, ?_⟩
      (List.Forall₂.cons ⟨rfl, List.Perm.refl _⟩ List.Forall₂.nil)
    exact List.Perm.swap "fmt" "example.com/mod/b" ["github.com/x/y"]
  · exact List.Perm.swap recB recA2 []

end GenDeps
